import Mathlib

/-!
# IncidentAttachmentLinkAttributesAttachmentObject: the JSON codec

Shallow embedding of
`api/datadogV2/model_incident_attachment_link_attributes_attachment_object.go`.

The two methods under study, `MarshalJSON` and `UnmarshalJSON`, are thin glue around Go's
`encoding/json`.  The library is modelled at the level of JSON syntax trees:

* a byte payload is represented by what the library's scanner makes of it, either a syntax
  error or the JSON value the text denotes (`Payload`); the strings of such a value are valid
  Unicode, because the scanner replaces what is not by U+FFFD when it unquotes;
* a JSON object keeps its members in textual order, duplicates included, because the struct
  decoder visits them one after the other;
* a Go string is a byte string and need not be valid UTF-8 (`GoString`); `json.Marshal`
  writes U+FFFD for every byte that is part of no valid encoding;
* a value of type `interface{}` is a `GoValue`; some of them `json.Marshal` refuses;
* a number that is decoded into an `interface{}` becomes a `float64`; the reading that
  `strconv.ParseFloat` gives of a literal is part of the literal (`Number`);
* an object key is matched against the wire names of the struct fields as the library does
  it: exactly, or failing that without regard to ASCII letter case (`findField`).  The member
  the decoder takes for a field is the last one it stores into it (`declared`); the member
  that literally has a given key is `memberNamed`.
-/

namespace DatadogV2

/-! ## Go strings -/

/-- One step of `utf8.DecodeRuneInString` over a Go string: a rune that is validly encoded,
or a single byte that starts no valid encoding. -/
inductive GoChar where
  | rune (c : Char)
  | bad (b : UInt8)
  deriving DecidableEq

/-- A Go string, cut into the pieces that `utf8.DecodeRuneInString` reads one after the
other.  Every byte string has exactly one such decomposition, so two Go strings are equal
when their decompositions are. -/
abbrev GoString := List GoChar

/-- A Go string that is valid UTF-8, given by its characters. -/
def GoString.ofString (s : String) : GoString := s.data.map GoChar.rune

/-- The rune read at a piece of a Go string: `utf8.RuneError`, U+FFFD, at a bad byte. -/
def GoChar.toValidUTF8 : GoChar → Char
  | .rune c => c
  | .bad _ => Char.ofNat 0xFFFD

/-- The string that `json.Marshal` writes for a Go string: every byte that is part of no
valid encoding is replaced by U+FFFD. -/
def GoString.toValidUTF8 (s : GoString) : String := String.mk (s.map GoChar.toValidUTF8)

/-- A piece that is a validly encoded rune. -/
def GoChar.isRune : GoChar → Bool
  | .rune _ => true
  | .bad _ => false

/-- The Go string is valid UTF-8 (`utf8.ValidString`). -/
def GoString.Valid (s : GoString) : Prop := ∀ c ∈ s, c.isRune = true

/-- The UTF-8 encoding of a character. -/
def utf8Bytes (c : Char) : List Nat :=
  let n := c.toNat
  if n < 0x80 then [n]
  else if n < 0x800 then [0xC0 + n / 0x40, 0x80 + n % 0x40]
  else if n < 0x10000 then [0xE0 + n / 0x1000, 0x80 + n / 0x40 % 0x40, 0x80 + n % 0x40]
  else [0xF0 + n / 0x40000, 0x80 + n / 0x1000 % 0x40, 0x80 + n / 0x40 % 0x40, 0x80 + n % 0x40]

/-- The bytes of a piece of a Go string. -/
def GoChar.bytes : GoChar → List Nat
  | .rune c => utf8Bytes c
  | .bad b => [b.toNat]

/-- The bytes of a Go string. -/
def GoString.bytes : GoString → List Nat
  | [] => []
  | c :: s => c.bytes ++ GoString.bytes s

/-- Lexicographic comparison of two byte strings (`strings.Compare(a, b) <= 0`). -/
def bytesLe : List Nat → List Nat → Bool
  | [], _ => true
  | _ :: _, [] => false
  | a :: as, b :: bs => a < b || (a == b && bytesLe as bs)

/-! ## JSON values, payloads, errors -/

/-- A JSON number literal.  It denotes `mantissa * 10 ^ exponent`.  The third field is what
`strconv.ParseFloat(literal, 64)` makes of it: `none` when the literal is out of the range of
a `float64`, otherwise the float nearest to it, named by the decimal `m * 10 ^ e` that
`json.Marshal` writes for that float. -/
structure Number where
  mantissa : Int
  exponent : Int
  float64 : Option (Int × Int)
  deriving DecidableEq

/-- An integer literal of magnitude below `2 ^ 53`: a `float64` holds it exactly. -/
def Number.int (n : Int) : Number := { mantissa := n, exponent := 0, float64 := some (n, 0) }

/-- JSON syntax trees. -/
inductive Json where
  | null
  | bool (b : Bool)
  | num (n : Number)
  | str (s : String)
  | arr (items : List Json)
  | obj (members : List (String × Json))

/-- What `encoding/json` calls the kind of a JSON value in its error messages. -/
def Json.kind : Json → String
  | .null => "null"
  | .bool _ => "bool"
  | .num _ => "number"
  | .str _ => "string"
  | .arr _ => "array"
  | .obj _ => "object"

/-- The `error` values that the codec can return. -/
inductive Error where
  /-- A `*json.SyntaxError`: the payload is not JSON text. -/
  | syntaxError (msg : String)
  /-- A `*json.UnmarshalTypeError`: a JSON value of kind `value` met a Go target of type
  `goType`. -/
  | unmarshalTypeError (value : String) (goType : String)
  /-- A `*json.UnsupportedTypeError`: `json.Marshal` met a value of a type it cannot
  encode, such as a channel or a function. -/
  | unsupportedTypeError (goType : String)
  /-- A `*json.UnsupportedValueError`: `json.Marshal` met a `float64` that is NaN or
  infinite. -/
  | unsupportedValueError (value : String)
  /-- The result of `fmt.Errorf(msg)`. -/
  | errorf (msg : String)
  deriving DecidableEq

/-- A byte payload, seen through the scanner of `encoding/json`. -/
inductive Payload where
  /-- The bytes are not valid JSON; `msg` is the scanner's complaint. -/
  | invalid (msg : String)
  /-- The bytes are valid JSON text denoting `j`. -/
  | valid (j : Json)

/-! ## Values of type `interface{}` and `map[string]interface{}` -/

/-- A `float64`.  A finite one is named by the decimal `mantissa * 10 ^ exponent` that
`json.Marshal` writes for it, the shortest one that reads back as the same float. -/
inductive Float64 where
  | finite (mantissa : Int) (exponent : Int)
  | nan
  | inf (negative : Bool)
  deriving DecidableEq

/-- A Go value held in an `interface{}`. -/
inductive GoValue where
  | nil
  | bool (b : Bool)
  | float64 (f : Float64)
  | string (s : GoString)
  /-- A non-nil `[]interface{}`. -/
  | slice (items : List GoValue)
  /-- A non-nil `map[string]interface{}`, its entries under pairwise distinct keys. -/
  | map (entries : List (GoString × GoValue))
  /-- Any other value that `json.Marshal` can encode (an integer, a struct, a pointer to
  one of these), given by the JSON that is written for it. -/
  | other (encoding : Json)
  /-- A value of a type that JSON cannot express (a channel, a function, a complex
  number); `goType` is the name of the type. -/
  | unsupported (goType : String)

/-- A Go `map[string]interface{}`: entries with pairwise distinct keys. -/
abbrev GoMap := List (GoString × GoValue)

/-- Reading `m[k]`. -/
def GoMap.get : GoMap → GoString → Option GoValue
  | [], _ => none
  | (k', v) :: m, k => if k' = k then some v else GoMap.get m k

/-- The assignment `m[k] = v`. -/
def GoMap.set : GoMap → GoString → GoValue → GoMap
  | [], k, v => [(k, v)]
  | (k', v') :: m, k, v => if k' = k then (k, v) :: m else (k', v') :: GoMap.set m k v

/-- One turn of a loop that stores every entry met into `m`: `m[kv.key] = kv.value`. -/
def GoMap.store (m : GoMap) (kv : GoString × GoValue) : GoMap := m.set kv.1 kv.2

/-- The keys of a map. -/
def GoMap.keys (m : GoMap) : List GoString := m.map Prod.fst

/-! ## `json.Marshal` -/

/-- The order in which `json.Marshal` visits the entries of a map: by the bytes of the
key. -/
def keyLe {α : Type} (a b : GoString × α) : Prop := bytesLe a.1.bytes b.1.bytes = true

instance {α : Type} : DecidableRel (keyLe (α := α)) :=
  fun a b => inferInstanceAs (Decidable (bytesLe a.1.bytes b.1.bytes = true))

/-- The members written for the entries of a map, already in key order and each with the
outcome of encoding its value: the first value that cannot be encoded stops the encoder
with its error; a key is written with U+FFFD in place of its bad bytes. -/
def collectMembers :
    List (GoString × Except Error Json) → Except Error (List (String × Json))
  | [] => .ok []
  | (_, .error e) :: _ => .error e
  | (k, .ok j) :: rest =>
    match collectMembers rest with
    | .error e => .error e
    | .ok members => .ok ((k.toValidUTF8, j) :: members)

mutual
/-- Encoding with `json.Marshal` of a value held in an `interface{}`. -/
def jsonMarshalValue : GoValue → Except Error Json
  | .nil => .ok .null
  | .bool b => .ok (.bool b)
  | .float64 (.finite m e) => .ok (.num { mantissa := m, exponent := e, float64 := some (m, e) })
  | .float64 .nan => .error (.unsupportedValueError "NaN")
  | .float64 (.inf false) => .error (.unsupportedValueError "+Inf")
  | .float64 (.inf true) => .error (.unsupportedValueError "-Inf")
  | .string s => .ok (.str s.toValidUTF8)
  | .slice items =>
    match jsonMarshalItems items with
    | .error e => .error e
    | .ok js => .ok (.arr js)
  | .map entries =>
    match collectMembers ((jsonMarshalEntries entries).insertionSort keyLe) with
    | .error e => .error e
    | .ok members => .ok (.obj members)
  | .other encoding => .ok encoding
  | .unsupported goType => .error (.unsupportedTypeError goType)
/-- Encoding of the items of a slice, in order, up to the first error. -/
def jsonMarshalItems : List GoValue → Except Error (List Json)
  | [] => .ok []
  | v :: vs =>
    match jsonMarshalValue v with
    | .error e => .error e
    | .ok j =>
      match jsonMarshalItems vs with
      | .error e => .error e
      | .ok js => .ok (j :: js)
/-- Every entry of a map with the outcome of encoding its value. -/
def jsonMarshalEntries : List (GoString × GoValue) → List (GoString × Except Error Json)
  | [] => []
  | (k, v) :: m => (k, jsonMarshalValue v) :: jsonMarshalEntries m
end

/-- Encoding with `json.Marshal` of a `map[string]interface{}`: an object with the members in
the order of their keys, or the error of the first value, in that order, that cannot be
encoded. -/
def jsonMarshalMap (m : GoMap) : Except Error Json :=
  jsonMarshalValue (.map m)

/-! ## The record -/

/-- The link attachment. -/
structure IncidentAttachmentLinkAttributesAttachmentObject where
  /-- The URL of this link attachment. -/
  DocumentUrl : GoString := []
  /-- The title of this link attachment. -/
  Title : GoString := []
  /-- The raw value of the object if there was an error when deserializing into the struct;
  `none` is Go's nil map. -/
  UnparsedObject : Option GoMap := none
  AdditionalProperties : Option GoMap := none

/-- The loop `for key, value := range m { toSerialize[key] = value }`; ranging over a nil map
does nothing. -/
def rangeInto (toSerialize : GoMap) : Option GoMap → GoMap
  | none => toSerialize
  | some m => m.foldl GoMap.store toSerialize

/-- MarshalJSON serializes the struct using spec logic. -/
def IncidentAttachmentLinkAttributesAttachmentObject.MarshalJSON
    (o : IncidentAttachmentLinkAttributesAttachmentObject) : Except Error Json :=
  let toSerialize : GoMap := []
  match o.UnparsedObject with
  | some unparsed => jsonMarshalMap unparsed
  | none =>
    let toSerialize := toSerialize.set (.ofString "documentUrl") (.string o.DocumentUrl)
    let toSerialize := toSerialize.set (.ofString "title") (.string o.Title)
    let toSerialize := rangeInto toSerialize o.AdditionalProperties
    jsonMarshalMap toSerialize

/-! ## `json.Unmarshal` into the three targets of `UnmarshalJSON` -/

/-- The two declared fields, in declaration order. -/
inductive Field where
  | documentUrl
  | title
  deriving DecidableEq

/-- The wire name given by the `json:"..."` tag. -/
def Field.name : Field → String
  | .documentUrl => "documentUrl"
  | .title => "title"

/-- The fields of both anonymous structs, in declaration order. -/
def fields : List Field := [.documentUrl, .title]

/-- Case folding of a key made of ASCII letters, as `encoding/json` compares field names. -/
def equalFold (a b : String) : Bool :=
  a.data.map Char.toLower == b.data.map Char.toLower

/-- The field an object key is decoded into: an exact match of the wire name is preferred,
otherwise the first field whose name matches case-insensitively; `none` when the key is
unknown and its value skipped. -/
def findField (key : String) : Option Field :=
  match fields.find? (fun f => f.name == key) with
  | some f => some f
  | none => fields.find? (fun f => equalFold f.name key)

/-- Keep the first error met while decoding (`d.saveError`). -/
def saveError (saved : Option Error) (e : Error) : Option Error :=
  match saved with
  | some e' => some e'
  | none => some e

/-- The anonymous struct `required`: every declared field as a nilable string. -/
structure Required where
  DocumentUrl : Option GoString := none
  Title : Option GoString := none
  deriving DecidableEq

/-- The anonymous struct `all`: every declared field with its own type. -/
structure All where
  DocumentUrl : GoString := []
  Title : GoString := []
  deriving DecidableEq

/-- Decoding a JSON value into a `*string`: null makes it nil, a string is stored, anything
else reports a type error; in that case a nil pointer has already been made to point to a
fresh (empty) string, and a non-nil one is left alone. -/
def decodeStringPtr (slot : Option GoString) (v : Json) : Option GoString × Option Error :=
  match v with
  | .null => (none, none)
  | .str s => (some (.ofString s), none)
  | v => (some (slot.getD []), some (.unmarshalTypeError v.kind "string"))

/-- Decoding a JSON value into a `string`: null is a no-op, a string is stored, anything
else leaves it alone and reports a type error. -/
def decodeString (slot : GoString) (v : Json) : GoString × Option Error :=
  match v with
  | .null => (slot, none)
  | .str s => (.ofString s, none)
  | v => (slot, some (.unmarshalTypeError v.kind "string"))

/-- One member of the payload object met while decoding into `required`. -/
def Required.member (st : Required × Option Error) (m : String × Json) :
    Required × Option Error :=
  match findField m.1 with
  | none => st
  | some .documentUrl =>
    match decodeStringPtr st.1.DocumentUrl m.2 with
    | (slot, none) => ({ st.1 with DocumentUrl := slot }, st.2)
    | (slot, some e) => ({ st.1 with DocumentUrl := slot }, saveError st.2 e)
  | some .title =>
    match decodeStringPtr st.1.Title m.2 with
    | (slot, none) => ({ st.1 with Title := slot }, st.2)
    | (slot, some e) => ({ st.1 with Title := slot }, saveError st.2 e)

/-- One member of the payload object met while decoding into `all`. -/
def All.member (st : All × Option Error) (m : String × Json) : All × Option Error :=
  match findField m.1 with
  | none => st
  | some .documentUrl =>
    match decodeString st.1.DocumentUrl m.2 with
    | (slot, none) => ({ st.1 with DocumentUrl := slot }, st.2)
    | (slot, some e) => ({ st.1 with DocumentUrl := slot }, saveError st.2 e)
  | some .title =>
    match decodeString st.1.Title m.2 with
    | (slot, none) => ({ st.1 with Title := slot }, st.2)
    | (slot, some e) => ({ st.1 with Title := slot }, saveError st.2 e)

/-- Decoding with `json.Unmarshal(bytes, &required)`: the target after the call and the error
returned.  JSON null has no effect on a struct; a value that is no object is a type error. -/
def jsonUnmarshalRequired (bytes : Payload) (required : Required) : Required × Option Error :=
  match bytes with
  | .invalid msg => (required, some (.syntaxError msg))
  | .valid .null => (required, none)
  | .valid (.obj members) => members.foldl Required.member (required, none)
  | .valid j => (required, some (.unmarshalTypeError j.kind "struct"))

/-- Decoding with `json.Unmarshal(bytes, &all)`: the target after the call and the error
returned. -/
def jsonUnmarshalAll (bytes : Payload) (all : All) : All × Option Error :=
  match bytes with
  | .invalid msg => (all, some (.syntaxError msg))
  | .valid .null => (all, none)
  | .valid (.obj members) => members.foldl All.member (all, none)
  | .valid j => (all, some (.unmarshalTypeError j.kind "struct"))

/-- The first of two errors met one after the other. -/
def firstError (first second : Option Error) : Option Error :=
  match first with
  | some e => some e
  | none => second

mutual
/-- Decoding a JSON value into an `interface{}`: the Go value stored and the first error
met.  A number becomes the `float64` that `strconv.ParseFloat` reads; when the literal is out
of range nil is stored and a type error is saved (its text, which quotes the literal, is not
modelled).  An array becomes a `[]interface{}`, an object a `map[string]interface{}` in
which a later duplicate key replaces an earlier one. -/
def decodeInterface : Json → GoValue × Option Error
  | .null => (.nil, none)
  | .bool b => (.bool b, none)
  | .num n =>
    match n.float64 with
    | some (m, e) => (.float64 (.finite m e), none)
    | none => (.nil, some (.unmarshalTypeError "number" "float64"))
  | .str s => (.string (.ofString s), none)
  | .arr items =>
    match decodeItems items with
    | (vs, err) => (.slice vs, err)
  | .obj members =>
    match decodeMembers members with
    | (kvs, err) => (.map (kvs.foldl GoMap.store []), err)
/-- Decoding of the items of an array, in order. -/
def decodeItems : List Json → List GoValue × Option Error
  | [] => ([], none)
  | j :: js =>
    match decodeInterface j, decodeItems js with
    | (v, e), (vs, es) => (v :: vs, firstError e es)
/-- Decoding of the members of an object into key and value, in textual order. -/
def decodeMembers : List (String × Json) → List (GoString × GoValue) × Option Error
  | [] => ([], none)
  | (k, j) :: ms =>
    match decodeInterface j, decodeMembers ms with
    | (v, e), (kvs, es) => ((.ofString k, v) :: kvs, firstError e es)
end

/-- Decoding with `json.Unmarshal(bytes, &raw)` into a `map[string]interface{}`: null sets the
map to nil, an object stores every member under its key (a later duplicate replacing an
earlier one, a nil map being allocated first), anything else is a type error. -/
def jsonUnmarshalMap (bytes : Payload) (raw : Option GoMap) : Option GoMap × Option Error :=
  match bytes with
  | .invalid msg => (raw, some (.syntaxError msg))
  | .valid .null => (none, none)
  | .valid (.obj members) =>
    match decodeMembers members with
    | (kvs, err) => (some (kvs.foldl GoMap.store (raw.getD [])), err)
  | .valid j => (raw, some (.unmarshalTypeError j.kind "map[string]interface \x7b\x7d"))

/-- UnmarshalJSON deserializes the given payload.  The receiver is passed in and its state
after the call is returned together with the error (`none` is Go's nil error). -/
def IncidentAttachmentLinkAttributesAttachmentObject.UnmarshalJSON
    (o : IncidentAttachmentLinkAttributesAttachmentObject) (bytes : Payload) :
    IncidentAttachmentLinkAttributesAttachmentObject × Option Error :=
  let raw : Option GoMap := some []
  let required : Required := {}
  let all : All := {}
  match jsonUnmarshalRequired bytes required with
  | (_, some err) => (o, some err)
  | (required, none) =>
    if required.DocumentUrl = none then
      (o, some (.errorf "required field documentUrl missing"))
    else if required.Title = none then
      (o, some (.errorf "required field title missing"))
    else
      match jsonUnmarshalAll bytes all with
      | (_, some _) =>
        match jsonUnmarshalMap bytes raw with
        | (_, some err) => (o, some err)
        | (raw, none) => ({ o with UnparsedObject := raw }, none)
      | (all, none) => ({ o with DocumentUrl := all.DocumentUrl, Title := all.Title }, none)

/-! ## Constructors and accessors

The methods have pointer receivers.  A getter may be called on a nil pointer, so its receiver
is an optional record (`none` is nil); a setter dereferences its receiver, so it takes a
record and returns the record after the assignment.  The constructors return a pointer to a
new record, never nil. -/

/-- NewIncidentAttachmentLinkAttributesAttachmentObject instantiates a new object: the zero
value with the two required properties assigned. -/
def NewIncidentAttachmentLinkAttributesAttachmentObject (documentUrl : GoString)
    (title : GoString) : IncidentAttachmentLinkAttributesAttachmentObject :=
  let this : IncidentAttachmentLinkAttributesAttachmentObject := {}
  let this := { this with DocumentUrl := documentUrl }
  let this := { this with Title := title }
  this

/-- NewIncidentAttachmentLinkAttributesAttachmentObjectWithDefaults instantiates a new object
and assigns default values only; this model declares none, so it is the zero value. -/
def NewIncidentAttachmentLinkAttributesAttachmentObjectWithDefaults :
    IncidentAttachmentLinkAttributesAttachmentObject :=
  let this : IncidentAttachmentLinkAttributesAttachmentObject := {}
  this

/-- GetDocumentUrl returns the DocumentUrl field value. -/
def IncidentAttachmentLinkAttributesAttachmentObject.GetDocumentUrl
    (o : Option IncidentAttachmentLinkAttributesAttachmentObject) : GoString :=
  match o with
  | none => []
  | some o => o.DocumentUrl

/-- GetDocumentUrlOk returns a tuple with the DocumentUrl field value and a boolean to check
if the value has been set.  The first component is the string the returned pointer points
to, `none` for a nil pointer. -/
def IncidentAttachmentLinkAttributesAttachmentObject.GetDocumentUrlOk
    (o : Option IncidentAttachmentLinkAttributesAttachmentObject) : Option GoString × Bool :=
  match o with
  | none => (none, false)
  | some o => (some o.DocumentUrl, true)

/-- SetDocumentUrl sets field value. -/
def IncidentAttachmentLinkAttributesAttachmentObject.SetDocumentUrl
    (o : IncidentAttachmentLinkAttributesAttachmentObject) (v : GoString) :
    IncidentAttachmentLinkAttributesAttachmentObject :=
  { o with DocumentUrl := v }

/-- GetTitle returns the Title field value. -/
def IncidentAttachmentLinkAttributesAttachmentObject.GetTitle
    (o : Option IncidentAttachmentLinkAttributesAttachmentObject) : GoString :=
  match o with
  | none => []
  | some o => o.Title

/-- GetTitleOk returns a tuple with the Title field value and a boolean to check if the
value has been set.  The first component is the string the returned pointer points to,
`none` for a nil pointer. -/
def IncidentAttachmentLinkAttributesAttachmentObject.GetTitleOk
    (o : Option IncidentAttachmentLinkAttributesAttachmentObject) : Option GoString × Bool :=
  match o with
  | none => (none, false)
  | some o => (some o.Title, true)

/-- SetTitle sets field value. -/
def IncidentAttachmentLinkAttributesAttachmentObject.SetTitle
    (o : IncidentAttachmentLinkAttributesAttachmentObject) (v : GoString) :
    IncidentAttachmentLinkAttributesAttachmentObject :=
  { o with Title := v }

/-! ## Vocabulary for the statements -/

/-- JSON strings. -/
def Json.isString : Json → Bool
  | .str _ => true
  | _ => false

/-- The JSON value `null`. -/
def Json.isNull : Json → Bool
  | .null => true
  | _ => false

/-- The values, in textual order, of the members of an object that the decoder stores into
field `f`. -/
def membersOf (f : Field) (members : List (String × Json)) : List Json :=
  (members.filter (fun m => findField m.1 = some f)).map Prod.snd

/-- The declared member `f` of an object as the decoder sees it: the value of the last member
stored into `f` (a later one supersedes an earlier one), `none` when there is no such
member. -/
def declared (f : Field) (members : List (String × Json)) : Option Json :=
  (membersOf f members).getLast?

/-- A member is absent or null. -/
def absentOrNull : Option Json → Prop
  | none => True
  | some v => v.isNull = true

/-- Every declared member that is present is a string or null. -/
def WellTyped (members : List (String × Json)) : Prop :=
  ∀ m ∈ members, findField m.1 ≠ none → m.2.isString = true ∨ m.2.isNull = true

/-- A declared member whose value is neither a string nor null. -/
def Mismatch (m : String × Json) : Prop :=
  findField m.1 ≠ none ∧ m.2.isString = false ∧ m.2.isNull = false

/-- The declared members of a payload of any shape: those of the object it denotes, and none
at all when it denotes no object. -/
def Payload.declared (f : Field) : Payload → Option Json
  | .valid (.obj members) => DatadogV2.declared f members
  | _ => none

/-- The member with a given key, read literally: the value of the last member whose key is
exactly `key`, `none` when no member has that key. -/
def memberNamed (key : String) (members : List (String × Json)) : Option Json :=
  ((members.filter (fun m => m.1 = key)).map Prod.snd).getLast?

/-- The value of the first member of an object that has the key `key`. -/
def Json.lookup : List (String × Json) → String → Option Json
  | [], _ => none
  | (k', v) :: members, k => if k' = k then some v else Json.lookup members k

/-- The nilable string left in a slot of `required` by the declared member it is given, in
an object whose declared members are all strings or null. -/
def ptrAfter (cur : Option GoString) : Option Json → Option GoString
  | none => cur
  | some (.str s) => some (.ofString s)
  | some _ => none

/-- The zero value of the record, `IncidentAttachmentLinkAttributesAttachmentObject{}`. -/
def fresh : IncidentAttachmentLinkAttributesAttachmentObject := {}

open IncidentAttachmentLinkAttributesAttachmentObject

/-! ## The struct decoders, member by member -/

theorem membersOf_concat (f : Field) (ms : List (String × Json)) (m : String × Json) :
    membersOf f (ms ++ [m]) =
      membersOf f ms ++ (if findField m.1 = some f then [m.2] else []) := by
  unfold membersOf
  by_cases h : findField m.1 = some f <;> simp [List.filter_append, h]

theorem declared_concat_bound (f : Field) (ms : List (String × Json)) (m : String × Json)
    (h : findField m.1 = some f) : declared f (ms ++ [m]) = some m.2 := by
  simp [declared, membersOf_concat, h]

theorem declared_concat_other (f : Field) (ms : List (String × Json)) (m : String × Json)
    (h : findField m.1 ≠ some f) : declared f (ms ++ [m]) = declared f ms := by
  simp [declared, membersOf_concat, h]

theorem required_member_error_keeps (r : Required) (e : Error) (m : String × Json) :
    (Required.member (r, some e) m).2 = some e := by
  unfold Required.member
  rcases m with ⟨k, v⟩
  cases hf : findField k with
  | none => rfl
  | some f => cases f <;> cases v <;> rfl

theorem required_foldl_error_keeps (ms : List (String × Json)) (r : Required) (e : Error) :
    (ms.foldl Required.member (r, some e)).2 = some e := by
  induction ms generalizing r with
  | nil => rfl
  | cons m ms ih =>
    have h := required_member_error_keeps r e m
    rw [List.foldl_cons]
    generalize Required.member (r, some e) m = st at h
    rcases st with ⟨r', e'⟩
    simp only at h
    subst h
    exact ih r'

theorem required_member_mismatch (r : Required) (e : Option Error) (m : String × Json)
    (h : Mismatch m) :
    (Required.member (r, e) m).2 = saveError e (.unmarshalTypeError m.2.kind "string") := by
  unfold Required.member
  rcases m with ⟨k, v⟩
  obtain ⟨hf, hs, hn⟩ := h
  cases hfk : findField k with
  | none => exact absurd hfk hf
  | some f => cases f <;> cases v <;> simp_all [decodeStringPtr, Json.isString, Json.isNull]

theorem WellTyped.of_concat {ms : List (String × Json)} {m : String × Json}
    (h : WellTyped (ms ++ [m])) : WellTyped ms ∧
      (findField m.1 ≠ none → m.2.isString = true ∨ m.2.isNull = true) :=
  ⟨fun x hx => h x (List.mem_append_left _ hx), h m (by simp)⟩

theorem required_foldl_wellTyped (ms : List (String × Json)) (r : Required) (e : Option Error)
    (h : WellTyped ms) :
    ms.foldl Required.member (r, e) =
      (⟨ptrAfter r.DocumentUrl (declared .documentUrl ms),
        ptrAfter r.Title (declared .title ms)⟩, e) := by
  induction ms using List.reverseRecOn with
  | nil => rfl
  | append_singleton ms m ih =>
    obtain ⟨hms, hm⟩ := h.of_concat
    rw [List.foldl_append, ih hms]
    rcases m with ⟨k, v⟩
    cases hf : findField k with
    | none =>
      rw [declared_concat_other _ _ _ (by simp [hf]), declared_concat_other _ _ _ (by simp [hf])]
      simp [Required.member, hf]
    | some f =>
      have hv := hm (by simp [hf])
      cases f with
      | documentUrl =>
        rw [declared_concat_bound .documentUrl _ _ hf,
          declared_concat_other .title _ _ (by simp [hf])]
        cases v <;> simp_all [Required.member, decodeStringPtr, ptrAfter, Json.isString, Json.isNull]
      | title =>
        rw [declared_concat_bound .title _ _ hf,
          declared_concat_other .documentUrl _ _ (by simp [hf])]
        cases v <;> simp_all [Required.member, decodeStringPtr, ptrAfter, Json.isString, Json.isNull]

theorem required_member_matched (r : Required) (e : Option Error) (m : String × Json)
    (h : ¬ Mismatch m) : ∃ r', Required.member (r, e) m = (r', e) := by
  unfold Required.member
  rcases m with ⟨k, v⟩
  cases hf : findField k with
  | none => exact ⟨r, rfl⟩
  | some f =>
    cases f <;> cases v <;>
      first
        | exact ⟨_, rfl⟩
        | exact absurd ⟨by simp [hf], rfl, rfl⟩ h

theorem required_foldl_mismatch (ms : List (String × Json)) (r : Required) (e : Option Error)
    (h : ∃ m ∈ ms, Mismatch m) :
    ∃ m ∈ ms, Mismatch m ∧
      (ms.foldl Required.member (r, e)).2 = saveError e (.unmarshalTypeError m.2.kind "string") := by
  induction ms generalizing r e with
  | nil => simp at h
  | cons x ms ih =>
    rw [List.foldl_cons]
    by_cases hx : Mismatch x
    · refine ⟨x, by simp, hx, ?_⟩
      have h1 := required_member_mismatch r e x hx
      generalize Required.member (r, e) x = st at h1
      rcases st with ⟨r', e'⟩
      simp only at h1
      subst h1
      cases e <;> exact required_foldl_error_keeps ms r' _
    · obtain ⟨m, hm, hmm⟩ := h
      have hm' : m ∈ ms := by
        rcases List.mem_cons.1 hm with rfl | h'
        · exact absurd hmm hx
        · exact h'
      obtain ⟨r', hr'⟩ := required_member_matched r e x hx
      rw [hr']
      obtain ⟨m', hm1, hm2, hm3⟩ := ih r' e ⟨m, hm', hmm⟩
      exact ⟨m', List.mem_cons_of_mem _ hm1, hm2, hm3⟩

theorem all_foldl_wellTyped (ms : List (String × Json)) (a : All) (e : Option Error)
    (h : WellTyped ms) :
    ∃ a', ms.foldl All.member (a, e) = (a', e) ∧
      (∀ s, declared .documentUrl ms = some (.str s) → a'.DocumentUrl = .ofString s) ∧
      (∀ s, declared .title ms = some (.str s) → a'.Title = .ofString s) := by
  induction ms using List.reverseRecOn with
  | nil => exact ⟨a, rfl, by simp [declared, membersOf], by simp [declared, membersOf]⟩
  | append_singleton ms m ih =>
    obtain ⟨hms, hm⟩ := h.of_concat
    obtain ⟨a', h1, h2, h3⟩ := ih hms
    rw [List.foldl_append, h1]
    rcases m with ⟨k, v⟩
    cases hf : findField k with
    | none =>
      rw [declared_concat_other _ _ _ (by simp [hf]), declared_concat_other _ _ _ (by simp [hf])]
      exact ⟨a', by simp [All.member, hf], h2, h3⟩
    | some f =>
      have hv := hm (by simp [hf])
      cases f with
      | documentUrl =>
        rw [declared_concat_bound .documentUrl _ _ hf,
          declared_concat_other .title _ _ (by simp [hf])]
        cases v <;> simp_all [All.member, decodeString, Json.isString, Json.isNull]
      | title =>
        rw [declared_concat_bound .title _ _ hf,
          declared_concat_other .documentUrl _ _ (by simp [hf])]
        cases v <;> simp_all [All.member, decodeString, Json.isString, Json.isNull]

/-- A well-typed object with both required members present as strings decodes into the typed
state: only the two declared fields of the receiver are written. -/
theorem UnmarshalJSON_typed (o : IncidentAttachmentLinkAttributesAttachmentObject)
    (ms : List (String × Json)) (d t : String) (h : WellTyped ms)
    (hd : declared .documentUrl ms = some (.str d)) (ht : declared .title ms = some (.str t)) :
    UnmarshalJSON o (.valid (.obj ms)) =
      ({ o with DocumentUrl := .ofString d, Title := .ofString t }, none) := by
  obtain ⟨a', h1, h2, h3⟩ := all_foldl_wellTyped ms {} none h
  simp [UnmarshalJSON, jsonUnmarshalRequired, jsonUnmarshalAll, required_foldl_wellTyped _ _ _ h,
    hd, ht, ptrAfter, h1, h2 d hd, h3 t ht]

/-- A well-typed object whose `documentUrl` is absent or null is rejected, naming that field. -/
theorem UnmarshalJSON_missing_documentUrl (o : IncidentAttachmentLinkAttributesAttachmentObject)
    (ms : List (String × Json)) (h : WellTyped ms)
    (hd : absentOrNull (declared .documentUrl ms)) :
    UnmarshalJSON o (.valid (.obj ms)) =
      (o, some (.errorf "required field documentUrl missing")) := by
  have : ptrAfter none (declared .documentUrl ms) = none := by
    cases hv : declared .documentUrl ms with
    | none => rfl
    | some v => cases v <;> simp_all [absentOrNull, Json.isNull, ptrAfter]
  simp [UnmarshalJSON, jsonUnmarshalRequired, required_foldl_wellTyped _ _ _ h, this]

theorem UnmarshalJSON_missing_title (o : IncidentAttachmentLinkAttributesAttachmentObject)
    (ms : List (String × Json)) (d : String) (h : WellTyped ms)
    (hd : declared .documentUrl ms = some (.str d))
    (ht : absentOrNull (declared .title ms)) :
    UnmarshalJSON o (.valid (.obj ms)) =
      (o, some (.errorf "required field title missing")) := by
  have : ptrAfter none (declared .title ms) = none := by
    cases hv : declared .title ms with
    | none => rfl
    | some v => cases v <;> simp_all [absentOrNull, Json.isNull, ptrAfter]
  simp only [UnmarshalJSON, jsonUnmarshalRequired, required_foldl_wellTyped _ _ _ h, this, hd]
  simp [ptrAfter]

theorem UnmarshalJSON_mismatch (o : IncidentAttachmentLinkAttributesAttachmentObject)
    (ms : List (String × Json)) (h : ∃ m ∈ ms, Mismatch m) :
    ∃ m ∈ ms, Mismatch m ∧
      UnmarshalJSON o (.valid (.obj ms)) = (o, some (.unmarshalTypeError m.2.kind "string")) := by
  obtain ⟨m, hm, hmm, he⟩ := required_foldl_mismatch ms {} none h
  refine ⟨m, hm, hmm, ?_⟩
  unfold UnmarshalJSON
  simp only [jsonUnmarshalRequired]
  generalize List.foldl Required.member ({}, none) ms = st at he
  rcases st with ⟨r', e'⟩
  simp only [saveError] at he
  subst he
  rfl

/-! ## Go maps -/

theorem GoMap.get_set (m : GoMap) (k : GoString) (v : GoValue) (k' : GoString) :
    (m.set k v).get k' = if k = k' then some v else m.get k' := by
  induction m with
  | nil => simp [GoMap.set, GoMap.get]
  | cons x m ih =>
    rcases x with ⟨k0, v0⟩
    by_cases h0 : k0 = k
    · subst h0
      by_cases h1 : k0 = k' <;> simp [GoMap.set, GoMap.get, h1]
    · by_cases h1 : k0 = k'
      · subst h1
        have : ¬ k = k0 := fun h => h0 h.symm
        simp [GoMap.set, GoMap.get, h0, this]
      · simp [GoMap.set, GoMap.get, h0, h1, ih]

theorem GoMap.keys_set (m : GoMap) (k : GoString) (v : GoValue) (k' : GoString) :
    k' ∈ (m.set k v).keys ↔ k' = k ∨ k' ∈ m.keys := by
  induction m with
  | nil => simp [GoMap.set, GoMap.keys]
  | cons x m ih =>
    rcases x with ⟨k0, v0⟩
    by_cases h0 : k0 = k
    · subst h0
      simp [GoMap.set, GoMap.keys]
    · simp only [GoMap.keys] at ih
      simp only [GoMap.set, h0, if_false, GoMap.keys, List.map_cons, List.mem_cons, ih]
      tauto

theorem GoMap.nodup_set (m : GoMap) (k : GoString) (v : GoValue) (h : m.keys.Nodup) :
    (m.set k v).keys.Nodup := by
  induction m with
  | nil => simp [GoMap.set, GoMap.keys]
  | cons x m ih =>
    rcases x with ⟨k0, v0⟩
    simp only [GoMap.keys, List.map_cons, List.nodup_cons] at h
    by_cases h0 : k0 = k
    · subst h0
      simpa [GoMap.set, GoMap.keys] using h
    · have hk := GoMap.keys_set m k v k0
      simp only [GoMap.keys] at hk ih
      simp only [GoMap.set, h0, if_false, GoMap.keys, List.map_cons, List.nodup_cons, hk]
      exact ⟨fun hh => hh.elim False.elim h.1, ih h.2⟩

theorem GoMap.get_eq_none (m : GoMap) (k : GoString) (h : k ∉ m.keys) : m.get k = none := by
  induction m with
  | nil => rfl
  | cons x m ih =>
    rcases x with ⟨k0, v0⟩
    simp only [GoMap.keys, List.map_cons, List.mem_cons, not_or] at h
    have h0 : ¬ k0 = k := fun hh => h.1 hh.symm
    simp only [GoMap.keys] at ih
    simp [GoMap.get, h0, ih h.2]

theorem GoMap.get_foldl_store (E : GoMap) (acc : GoMap) (k : GoString) (h : E.keys.Nodup) :
    (E.foldl GoMap.store acc).get k =
      match E.get k with
      | some v => some v
      | none => acc.get k := by
  induction E generalizing acc with
  | nil => rfl
  | cons x E ih =>
    rcases x with ⟨k0, v0⟩
    simp only [GoMap.keys, List.map_cons, List.nodup_cons] at h
    simp only [GoMap.keys] at ih
    rw [List.foldl_cons, ih _ h.2, GoMap.store, GoMap.get_set]
    by_cases h0 : k0 = k
    · subst h0
      simp [GoMap.get, GoMap.get_eq_none E k0 h.1]
    · simp [GoMap.get, h0]

theorem GoMap.keys_foldl_store (E : GoMap) (acc : GoMap) (k : GoString) :
    k ∈ (E.foldl GoMap.store acc).keys ↔ k ∈ acc.keys ∨ k ∈ E.keys := by
  induction E generalizing acc with
  | nil => simp [GoMap.keys]
  | cons x E ih =>
    rw [List.foldl_cons, ih, GoMap.store, GoMap.keys_set]
    simp only [GoMap.keys, List.map_cons, List.mem_cons]
    tauto

theorem GoMap.nodup_foldl_store (E : GoMap) (acc : GoMap) (h : acc.keys.Nodup) :
    (E.foldl GoMap.store acc).keys.Nodup := by
  induction E generalizing acc with
  | nil => exact h
  | cons x E ih => exact ih _ (GoMap.nodup_set acc x.1 x.2 h)

theorem declared_mem (f : Field) (ms : List (String × Json)) (v : Json)
    (h : declared f ms = some v) : ∃ m ∈ ms, findField m.1 = some f ∧ m.2 = v := by
  have hv := List.mem_of_getLast?_eq_some h
  simp only [membersOf, List.mem_map, List.mem_filter, decide_eq_true_eq] at hv
  obtain ⟨m, ⟨hm, hf⟩, rfl⟩ := hv
  exact ⟨m, hm, hf, rfl⟩

theorem wellTyped_of_no_mismatch (ms : List (String × Json)) (h : ¬ ∃ m ∈ ms, Mismatch m) :
    WellTyped ms := by
  intro m hm hf
  by_contra hc
  simp only [not_or, Bool.not_eq_true] at hc
  exact h ⟨m, hm, hf, hc.1, hc.2⟩

theorem wellTyped_nil : WellTyped [] := by
  intro m hm
  cases hm

theorem wellTyped_cons_string (k s : String) (ms : List (String × Json)) (h : WellTyped ms) :
    WellTyped ((k, .str s) :: ms) := by
  intro m hm hf
  rcases List.mem_cons.1 hm with rfl | hm'
  · exact Or.inl rfl
  · exact h m hm' hf

theorem wellTyped_cons_null (k : String) (ms : List (String × Json)) (h : WellTyped ms) :
    WellTyped ((k, .null) :: ms) := by
  intro m hm hf
  rcases List.mem_cons.1 hm with rfl | hm'
  · exact Or.inr rfl
  · exact h m hm' hf

theorem wellTyped_cons_unknown (k : String) (v : Json) (ms : List (String × Json))
    (hk : findField k = none) (h : WellTyped ms) : WellTyped ((k, v) :: ms) := by
  intro m hm hf
  rcases List.mem_cons.1 hm with rfl | hm'
  · exact absurd hk hf
  · exact h m hm' hf

theorem rangeInto_eq (acc : GoMap) (ap : Option GoMap) :
    rangeInto acc ap = (ap.getD []).foldl GoMap.store acc := by
  cases ap <;> rfl

/-! ## Go strings and `json.Marshal` -/

theorem GoString.toValidUTF8_ofString (s : String) : (GoString.ofString s).toValidUTF8 = s := by
  simp [GoString.ofString, GoString.toValidUTF8, List.map_map, Function.comp_def,
    GoChar.toValidUTF8]

theorem GoString.valid_ofString (s : String) : (GoString.ofString s).Valid := by
  intro c hc
  simp only [GoString.ofString, List.mem_map] at hc
  obtain ⟨a, _, rfl⟩ := hc
  rfl

theorem GoString.ofString_toValidUTF8 (g : GoString) (h : g.Valid) :
    GoString.ofString g.toValidUTF8 = g := by
  induction g with
  | nil => rfl
  | cons c g ih =>
    have hc := h c (by simp)
    have hg : GoString.Valid g := fun x hx => h x (List.mem_cons_of_mem _ hx)
    have ih' := ih hg
    simp only [GoString.ofString, GoString.toValidUTF8, List.map_cons] at ih' ⊢
    cases c with
    | rune r => simp [GoChar.toValidUTF8, ih']
    | bad b => simp [GoChar.isRune] at hc

theorem jsonMarshalEntries_eq_map (m : GoMap) :
    jsonMarshalEntries m = m.map (fun kv => (kv.1, jsonMarshalValue kv.2)) := by
  induction m with
  | nil => simp [jsonMarshalEntries]
  | cons x m ih =>
    rcases x with ⟨k, v⟩
    simp [jsonMarshalEntries, ih]

theorem jsonMarshalMap_eq (m : GoMap) :
    jsonMarshalMap m =
      match collectMembers ((jsonMarshalEntries m).insertionSort keyLe) with
      | .error e => .error e
      | .ok members => .ok (.obj members) := by
  simp [jsonMarshalMap, jsonMarshalValue]

theorem MarshalJSON_typed (d t : GoString) (ap : Option GoMap) :
    MarshalJSON { DocumentUrl := d, Title := t, UnparsedObject := none,
                  AdditionalProperties := ap } =
      jsonMarshalMap ((ap.getD []).foldl GoMap.store
        [(.ofString "documentUrl", .string d), (.ofString "title", .string t)]) := by
  simp only [MarshalJSON, rangeInto_eq]
  rfl

theorem GoString.ofString_inj {a b : String} (h : GoString.ofString a = GoString.ofString b) :
    a = b := by
  have := congrArg GoString.toValidUTF8 h
  simpa [GoString.toValidUTF8_ofString] using this

theorem GoString.toValidUTF8_inj {a b : GoString} (ha : a.Valid) (hb : b.Valid)
    (h : a.toValidUTF8 = b.toValidUTF8) : a = b := by
  rw [← GoString.ofString_toValidUTF8 a ha, ← GoString.ofString_toValidUTF8 b hb, h]

theorem collectMembers_ok (L : List (GoString × Except Error Json))
    (h : ∀ x ∈ L, ∃ j, x.2 = .ok j) :
    ∃ out, collectMembers L = .ok out ∧
      List.Forall₂ (fun x o => o.1 = x.1.toValidUTF8 ∧ x.2 = .ok o.2) L out := by
  induction L with
  | nil => exact ⟨[], rfl, List.Forall₂.nil⟩
  | cons x L ih =>
    obtain ⟨out, ho, hf⟩ := ih fun y hy => h y (List.mem_cons_of_mem _ hy)
    obtain ⟨j, hj⟩ := h x (by simp)
    rcases x with ⟨k, r⟩
    simp only at hj
    subst hj
    exact ⟨(k.toValidUTF8, j) :: out, by simp [collectMembers, ho],
      List.Forall₂.cons ⟨rfl, rfl⟩ hf⟩

theorem keys_of_collected {L : List (GoString × Except Error Json)}
    {out : List (String × Json)}
    (h : List.Forall₂ (fun x o => o.1 = x.1.toValidUTF8 ∧ x.2 = .ok o.2) L out) :
    out.map Prod.fst = L.map (fun x => x.1.toValidUTF8) := by
  induction h with
  | nil => rfl
  | cons hxo _ ih => simp [ih, hxo.1]

theorem lookup_of_collected {L : List (GoString × Except Error Json)}
    {out : List (String × Json)}
    (h : List.Forall₂ (fun x o => o.1 = x.1.toValidUTF8 ∧ x.2 = .ok o.2) L out)
    (hv : ∀ x ∈ L, x.1.Valid) (hn : (L.map Prod.fst).Nodup) (k : String) (j : Json)
    (hm : (GoString.ofString k, Except.ok j) ∈ L) : Json.lookup out k = some j := by
  induction h with
  | nil => cases hm
  | @cons x o L out hxo _ ih =>
    rcases x with ⟨kx, rx⟩
    rcases o with ⟨ko, jo⟩
    simp only at hxo
    obtain ⟨hk, hr⟩ := hxo
    simp only [List.map_cons, List.nodup_cons] at hn
    rcases List.mem_cons.1 hm with heq | hin
    · have h1 : kx = GoString.ofString k := (Prod.mk.inj heq).1.symm
      have h2 : rx = Except.ok j := (Prod.mk.inj heq).2.symm
      have hjo : jo = j := by
        rw [h2] at hr
        exact (Except.ok.inj hr).symm
      subst h1
      simp [Json.lookup, hk, GoString.toValidUTF8_ofString, hjo]
    · have hne : ¬ ko = k := by
        intro hkk
        apply hn.1
        have hvx : GoString.Valid kx := hv (kx, rx) (by simp)
        have : kx = GoString.ofString k := by
          rw [← GoString.ofString_toValidUTF8 kx hvx, ← hk, hkk]
        rw [this]
        exact List.mem_map.2 ⟨_, hin, rfl⟩
      simp only [Json.lookup, hne, if_false]
      exact ih (fun y hy => hv y (List.mem_cons_of_mem _ hy)) hn.2 hin

theorem GoMap.mem_of_get (m : GoMap) (k : GoString) (v : GoValue) (h : m.get k = some v) :
    (k, v) ∈ m := by
  induction m with
  | nil => simp [GoMap.get] at h
  | cons x m ih =>
    rcases x with ⟨k0, v0⟩
    by_cases h0 : k0 = k
    · simp only [GoMap.get, h0, if_true] at h
      cases h
      simp [h0]
    · simp only [GoMap.get, h0, if_false] at h
      exact List.mem_cons_of_mem _ (ih h)

theorem GoMap.mem_set (m : GoMap) (k : GoString) (v : GoValue) (kv : GoString × GoValue)
    (h : kv ∈ m.set k v) : kv = (k, v) ∨ kv ∈ m := by
  induction m with
  | nil => simpa [GoMap.set] using h
  | cons x m ih =>
    rcases x with ⟨k0, v0⟩
    by_cases h0 : k0 = k
    · simp only [GoMap.set, h0, if_true, List.mem_cons] at h
      rcases h with h | h
      · exact Or.inl h
      · exact Or.inr (List.mem_cons_of_mem _ h)
    · simp only [GoMap.set, h0, if_false, List.mem_cons] at h
      rcases h with h | h
      · exact Or.inr (by simp [h])
      · exact (ih h).imp id (List.mem_cons_of_mem _)

theorem GoMap.mem_foldl_store (E acc : GoMap) (kv : GoString × GoValue)
    (h : kv ∈ E.foldl GoMap.store acc) : kv ∈ acc ∨ kv ∈ E := by
  induction E generalizing acc with
  | nil => exact Or.inl h
  | cons x E ih =>
    rcases ih _ h with h1 | h1
    · rcases GoMap.mem_set acc x.1 x.2 kv h1 with h2 | h2
      · exact Or.inr (by simp [h2])
      · exact Or.inl h2
    · exact Or.inr (List.mem_cons_of_mem _ h1)

/-- What `json.Marshal` writes for a map whose keys are valid UTF-8 and whose values can all
be encoded: an object with one member for every entry. -/
theorem jsonMarshalMap_spec (m : GoMap) (hn : m.keys.Nodup) (hk : ∀ k ∈ m.keys, k.Valid)
    (hv : ∀ kv ∈ m, ∃ j, jsonMarshalValue kv.2 = .ok j) :
    ∃ out, jsonMarshalMap m = .ok (.obj out) ∧
      (out.map Prod.fst).Nodup ∧
      (∀ k, k ∈ out.map Prod.fst ↔ GoString.ofString k ∈ m.keys) ∧
      (∀ k v, m.get (.ofString k) = some v →
        ∃ j, jsonMarshalValue v = .ok j ∧ Json.lookup out k = some j) := by
  have hperm := List.perm_insertionSort keyLe (jsonMarshalEntries m)
  have hkeys : List.Perm ((List.insertionSort keyLe (jsonMarshalEntries m)).map Prod.fst)
      m.keys := by
    have := hperm.map Prod.fst
    simpa [jsonMarshalEntries_eq_map, GoMap.keys, List.map_map, Function.comp_def] using this
  have hall : ∀ x ∈ List.insertionSort keyLe (jsonMarshalEntries m), ∃ j, x.2 = .ok j := by
    intro x hx
    have hx' := hperm.mem_iff.1 hx
    rw [jsonMarshalEntries_eq_map, List.mem_map] at hx'
    obtain ⟨kv, hkv, rfl⟩ := hx'
    exact hv kv hkv
  have hvalid : ∀ x ∈ List.insertionSort keyLe (jsonMarshalEntries m), x.1.Valid := by
    intro x hx
    exact hk x.1 (hkeys.mem_iff.1 (List.mem_map.2 ⟨x, hx, rfl⟩))
  have hnd : ((List.insertionSort keyLe (jsonMarshalEntries m)).map Prod.fst).Nodup :=
    (List.Perm.nodup_iff hkeys).2 hn
  obtain ⟨out, ho, hf⟩ := collectMembers_ok _ hall
  refine ⟨out, by rw [jsonMarshalMap_eq, ho], ?_, ?_, ?_⟩
  · rw [keys_of_collected hf]
    have : (List.insertionSort keyLe (jsonMarshalEntries m)).map (fun x => x.1.toValidUTF8) =
        ((List.insertionSort keyLe (jsonMarshalEntries m)).map Prod.fst).map
          GoString.toValidUTF8 := by
      simp [List.map_map, Function.comp_def]
    rw [this]
    refine List.Nodup.map_on ?_ hnd
    intro a ha b hb hab
    exact GoString.toValidUTF8_inj (hk a (hkeys.mem_iff.1 ha)) (hk b (hkeys.mem_iff.1 hb)) hab
  · intro k
    rw [keys_of_collected hf, List.mem_map]
    constructor
    · rintro ⟨x, hx, rfl⟩
      rw [GoString.ofString_toValidUTF8 _ (hvalid x hx)]
      exact hkeys.mem_iff.1 (List.mem_map.2 ⟨x, hx, rfl⟩)
    · intro hmem
      obtain ⟨x, hx, hxk⟩ := List.mem_map.1 (hkeys.mem_iff.2 hmem)
      exact ⟨x, hx, by rw [hxk, GoString.toValidUTF8_ofString]⟩
  · intro k v hg
    have hmem := GoMap.mem_of_get m _ v hg
    obtain ⟨j, hj⟩ := hv _ hmem
    refine ⟨j, hj, lookup_of_collected hf hvalid hnd k j ?_⟩
    apply hperm.mem_iff.2
    rw [jsonMarshalEntries_eq_map, List.mem_map]
    exact ⟨_, hmem, by simp [hj]⟩

theorem foldl_store_declared (E : GoMap) (d t : GoString)
    (h : ∀ kv ∈ E, (kv.1 = .ofString "documentUrl" ∨ kv.1 = .ofString "title") ∧
      ∃ s, kv.2 = .string s) :
    ∃ d' t', E.foldl GoMap.store
        [(.ofString "documentUrl", .string d), (.ofString "title", .string t)] =
      [(.ofString "documentUrl", .string d'), (.ofString "title", .string t')] := by
  induction E generalizing d t with
  | nil => exact ⟨d, t, rfl⟩
  | cons x E ih =>
    obtain ⟨hk, s, hs⟩ := h x (by simp)
    have hE : ∀ kv ∈ E, (kv.1 = .ofString "documentUrl" ∨ kv.1 = .ofString "title") ∧
        ∃ s, kv.2 = .string s :=
      fun kv hkv => h kv (List.mem_cons_of_mem _ hkv)
    rcases x with ⟨k, v⟩
    simp only at hk hs
    subst hs
    rcases hk with rfl | rfl
    · exact ih s t hE
    · exact ih d s hE

theorem MarshalJSON_plain (d t : GoString) :
    MarshalJSON { DocumentUrl := d, Title := t, UnparsedObject := none,
                  AdditionalProperties := none } =
      .ok (.obj [("documentUrl", .str d.toValidUTF8), ("title", .str t.toValidUTF8)]) :=
  rfl

/-! ## The claims -/

/-- C1, as stated, fails for a string that is not valid UTF-8.  The record with
`DocumentUrl = "a\xffb"` is marshalled with U+FFFD in place of the byte `\xff`, and
unmarshalling the result yields that other string. -/
theorem round_trip_fails_on_invalid_utf8 :
    MarshalJSON { DocumentUrl := [.rune 'a', .bad 0xFF, .rune 'b'], Title := .ofString "t",
                  UnparsedObject := none, AdditionalProperties := none } =
      .ok (.obj [("documentUrl", .str "a�b"), ("title", .str "t")]) ∧
    UnmarshalJSON fresh (.valid (.obj [("documentUrl", .str "a�b"), ("title", .str "t")])) =
      ({ DocumentUrl := .ofString "a�b", Title := .ofString "t", UnparsedObject := none,
         AdditionalProperties := none }, none) ∧
    GoString.ofString "a�b" ≠ [.rune 'a', .bad 0xFF, .rune 'b'] :=
  ⟨rfl, rfl, by decide⟩

/-- C1, amended (round trip).  For all Go strings `d` and `t`, the typed record with
`DocumentUrl = d`, `Title = t`, `UnparsedObject` nil and `AdditionalProperties` empty (nil or
the empty map) is marshalled without error, and unmarshalling the result into a fresh record
returns no error and yields, with `UnparsedObject` nil and no additional properties, the
strings `d` and `t` with U+FFFD in place of every byte that is part of no valid UTF-8
encoding: exactly `d` and `t` when both are valid UTF-8. -/
theorem round_trip_typed (d t : GoString) (E : Option GoMap) (hE : E = none ∨ E = some []) :
    ∃ j, MarshalJSON { DocumentUrl := d, Title := t, UnparsedObject := none,
                       AdditionalProperties := E } = .ok j ∧
      UnmarshalJSON fresh (.valid j) =
        ({ DocumentUrl := .ofString d.toValidUTF8, Title := .ofString t.toValidUTF8,
           UnparsedObject := none, AdditionalProperties := none }, none) ∧
      (d.Valid → t.Valid →
        UnmarshalJSON fresh (.valid j) =
          ({ DocumentUrl := d, Title := t, UnparsedObject := none,
             AdditionalProperties := none }, none)) := by
  refine ⟨.obj [("documentUrl", .str d.toValidUTF8), ("title", .str t.toValidUTF8)],
    ?_, rfl, fun hd ht => ?_⟩
  · rcases hE with rfl | rfl <;> rfl
  · have h : UnmarshalJSON fresh
        (.valid (.obj [("documentUrl", .str d.toValidUTF8), ("title", .str t.toValidUTF8)])) =
        ({ DocumentUrl := .ofString d.toValidUTF8, Title := .ofString t.toValidUTF8,
           UnparsedObject := none, AdditionalProperties := none }, none) := rfl
    rw [h, GoString.ofString_toValidUTF8 d hd, GoString.ofString_toValidUTF8 t ht]

/-- The round trip of C1 at a concrete record whose additional properties are the empty map. -/
theorem round_trip_typed_witness :
    ∃ j, MarshalJSON { DocumentUrl := .ofString "https://example.com/doc",
                       Title := .ofString "Postmortem",
                       UnparsedObject := none, AdditionalProperties := some [] } = .ok j ∧
      UnmarshalJSON fresh (.valid j) =
        ({ DocumentUrl := .ofString "https://example.com/doc", Title := .ofString "Postmortem",
           UnparsedObject := none, AdditionalProperties := none }, none) :=
  (round_trip_typed (.ofString "https://example.com/doc") (.ofString "Postmortem") (some [])
    (Or.inr rfl)).imp fun _ h =>
      ⟨h.1, h.2.2 (GoString.valid_ofString _) (GoString.valid_ofString _)⟩

/-- C2, as stated, fails when the key differs from the wire name by letter case.  The payload
`{"DOCUMENTURL": "y"}` has no member named `documentUrl`, and its only member is a string,
yet the decode fails with "required field title missing": the decoder has stored the member
into `DocumentUrl`. -/
theorem missing_field_literal_key_fails :
    memberNamed "documentUrl" [("DOCUMENTURL", .str "y")] = none ∧
    UnmarshalJSON fresh (.valid (.obj [("DOCUMENTURL", .str "y")])) =
      (fresh, some (.errorf "required field title missing")) :=
  ⟨rfl, rfl⟩

/-- C2, amended (missing-field rejection names the first missing field).  The members
`documentUrl` and `title` of a payload are those the decoder stores into the two fields: a
key matches a wire name exactly or without regard to letter case, and a later member
supersedes an earlier one.  For every JSON object payload in which every such member is a
string or null: when `documentUrl` is absent or null the decode fails with
"required field documentUrl missing", whatever `title` is; when `documentUrl` is a string and
`title` is absent or null it fails with "required field title missing".  The receiver is
left as it was. -/
theorem missing_field_names_first (o : IncidentAttachmentLinkAttributesAttachmentObject)
    (members : List (String × Json)) (h : WellTyped members) :
    (absentOrNull (declared .documentUrl members) →
      UnmarshalJSON o (.valid (.obj members)) =
        (o, some (.errorf "required field documentUrl missing"))) ∧
    (∀ d, declared .documentUrl members = some (.str d) →
      absentOrNull (declared .title members) →
      UnmarshalJSON o (.valid (.obj members)) =
        (o, some (.errorf "required field title missing"))) :=
  ⟨UnmarshalJSON_missing_documentUrl o members h,
   fun d hd ht => UnmarshalJSON_missing_title o members d h hd ht⟩

/-- The rejections of C2 at the payloads `{}`, `{"title": "x"}`,
`{"documentUrl": null, "title": "x"}` and `{"documentUrl": "y"}`. -/
theorem missing_field_names_first_witness :
    UnmarshalJSON fresh (.valid (.obj [])) =
        (fresh, some (.errorf "required field documentUrl missing")) ∧
    UnmarshalJSON fresh (.valid (.obj [("title", .str "x")])) =
        (fresh, some (.errorf "required field documentUrl missing")) ∧
    UnmarshalJSON fresh (.valid (.obj [("documentUrl", .null), ("title", .str "x")])) =
        (fresh, some (.errorf "required field documentUrl missing")) ∧
    UnmarshalJSON fresh (.valid (.obj [("documentUrl", .str "y")])) =
        (fresh, some (.errorf "required field title missing")) :=
  ⟨(missing_field_names_first fresh [] wellTyped_nil).1 trivial,
   (missing_field_names_first fresh [("title", .str "x")]
      (wellTyped_cons_string _ _ _ wellTyped_nil)).1 trivial,
   (missing_field_names_first fresh [("documentUrl", .null), ("title", .str "x")]
      (wellTyped_cons_null _ _ (wellTyped_cons_string _ _ _ wellTyped_nil))).1 rfl,
   (missing_field_names_first fresh [("documentUrl", .str "y")]
      (wellTyped_cons_string _ _ _ wellTyped_nil)).2 "y" rfl trivial⟩

/-- C3, as stated, fails on its own example: decoding
`{"documentUrl": "u", "title": 123}` into a fresh record returns the type error of the first
`json.Unmarshal` and leaves `UnparsedObject` nil; no raw record is produced. -/
theorem raw_fallback_example_rejected :
    UnmarshalJSON fresh
        (.valid (.obj [("documentUrl", .str "u"), ("title", .num (.int 123))])) =
      (fresh, some (.unmarshalTypeError "number" "string")) ∧
    (UnmarshalJSON fresh
        (.valid (.obj [("documentUrl", .str "u"),
          ("title", .num (.int 123))]))).1.UnparsedObject = none :=
  ⟨rfl, rfl⟩

/-- C3, amended.  For every JSON object payload in which both required members are present and
non-null but some declared member is neither a string nor null, the decode returns the
decoder's type error for such a member and leaves the receiver as it was: no raw record is
produced and `UnparsedObject` is not set. -/
theorem raw_fallback_not_taken (o : IncidentAttachmentLinkAttributesAttachmentObject)
    (members : List (String × Json))
    (_hd : ¬ absentOrNull (declared .documentUrl members))
    (_ht : ¬ absentOrNull (declared .title members))
    (h : ∃ m ∈ members, Mismatch m) :
    (∃ m ∈ members, Mismatch m ∧
      UnmarshalJSON o (.valid (.obj members)) =
        (o, some (.unmarshalTypeError m.2.kind "string"))) ∧
    (UnmarshalJSON o (.valid (.obj members))).1.UnparsedObject = o.UnparsedObject := by
  obtain ⟨m, hm, hmm, he⟩ := UnmarshalJSON_mismatch o members h
  exact ⟨⟨m, hm, hmm, he⟩, by rw [he]⟩

/-- The amended C3 at the payload `{"documentUrl": "u", "title": 123}`. -/
theorem raw_fallback_not_taken_witness :
    (∃ m ∈ [("documentUrl", Json.str "u"), ("title", Json.num (.int 123))], Mismatch m ∧
      UnmarshalJSON fresh
          (.valid (.obj [("documentUrl", .str "u"), ("title", .num (.int 123))])) =
        (fresh, some (.unmarshalTypeError m.2.kind "string"))) ∧
    (UnmarshalJSON fresh
        (.valid (.obj [("documentUrl", .str "u"),
          ("title", .num (.int 123))]))).1.UnparsedObject = fresh.UnparsedObject :=
  raw_fallback_not_taken fresh [("documentUrl", .str "u"), ("title", .num (.int 123))]
    (fun h => Bool.noConfusion h) (fun h => Bool.noConfusion h)
    ⟨("title", .num (.int 123)), by simp, by decide, rfl, rfl⟩

/-- C4 (type mismatch is a hard error).  For every JSON object payload in which some member
decoded into `documentUrl` or `title` is neither a string nor null, whatever the other
members are, the decode returns the `UnmarshalTypeError` raised for such a member (the first
one in textual order), which is not a "required field ... missing" error, and the receiver is
left as it was: neither a typed nor a raw record is produced. -/
theorem type_mismatch_is_hard_error (o : IncidentAttachmentLinkAttributesAttachmentObject)
    (members : List (String × Json)) (h : ∃ m ∈ members, Mismatch m) :
    (∃ m ∈ members, Mismatch m ∧
      UnmarshalJSON o (.valid (.obj members)) =
        (o, some (.unmarshalTypeError m.2.kind "string"))) ∧
    (∀ msg, (UnmarshalJSON o (.valid (.obj members))).2 ≠ some (.errorf msg)) ∧
    (UnmarshalJSON o (.valid (.obj members))).1 = o := by
  obtain ⟨m, hm, hmm, he⟩ := UnmarshalJSON_mismatch o members h
  refine ⟨⟨m, hm, hmm, he⟩, fun msg => ?_, ?_⟩
  · rw [he]
    simp
  · rw [he]

/-- The hard error of C4 at `{"title": 5}`, where `documentUrl` is missing as well. -/
theorem type_mismatch_is_hard_error_witness :
    (∃ m ∈ [("title", Json.num (.int 5))], Mismatch m ∧
      UnmarshalJSON fresh (.valid (.obj [("title", .num (.int 5))])) =
        (fresh, some (.unmarshalTypeError m.2.kind "string"))) ∧
    (∀ msg, (UnmarshalJSON fresh (.valid (.obj [("title", .num (.int 5))]))).2 ≠
      some (.errorf msg)) ∧
    (UnmarshalJSON fresh (.valid (.obj [("title", .num (.int 5))]))).1 = fresh :=
  type_mismatch_is_hard_error fresh [("title", .num (.int 5))]
    ⟨("title", .num (.int 5)), by simp, by decide, rfl, rfl⟩

/-- C5 (malformed input).  For every payload that is not valid JSON the decode fails with the
scanner's syntax error: never with a "required field ... missing" error, never with
success, and the receiver is left as it was. -/
theorem malformed_input_rejected (o : IncidentAttachmentLinkAttributesAttachmentObject)
    (msg : String) :
    UnmarshalJSON o (.invalid msg) = (o, some (.syntaxError msg)) ∧
    (∀ m, (UnmarshalJSON o (.invalid msg)).2 ≠ some (.errorf m)) ∧
    (UnmarshalJSON o (.invalid msg)).2 ≠ none := by
  refine ⟨rfl, fun m => ?_, ?_⟩ <;> simp [UnmarshalJSON, jsonUnmarshalRequired]

/-- C6, as stated, fails in two ways.  With `AdditionalProperties = {"x": NaN}` `MarshalJSON`
returns the error of `json.Marshal` and serializes nothing.  With the two keys `"\xff"` and
`"\xfe"`, which are not valid UTF-8, both are written as U+FFFD: the object has two members
under that one key and none under the keys of `AdditionalProperties`. -/
theorem extra_fields_marshal_can_fail :
    MarshalJSON { DocumentUrl := .ofString "u", Title := .ofString "t", UnparsedObject := none,
                  AdditionalProperties := some [(.ofString "x", .float64 .nan)] } =
      .error (.unsupportedValueError "NaN") ∧
    MarshalJSON { DocumentUrl := .ofString "u", Title := .ofString "t", UnparsedObject := none,
                  AdditionalProperties := some [([.bad 0xFF], .string (.ofString "a")),
                                                ([.bad 0xFE], .string (.ofString "b"))] } =
      .ok (.obj [("documentUrl", .str "u"), ("title", .str "t"),
                 ("�", .str "b"), ("�", .str "a")]) :=
  ⟨rfl, rfl⟩

/-- C6, amended (extra-field merge on encode).  For every typed record with `DocumentUrl = d`,
`Title = t` and additional properties `E` whose keys are valid UTF-8 and whose values
`json.Marshal` can encode, `MarshalJSON` writes an object whose keys are pairwise distinct and
are exactly `documentUrl`, `title` and the keys of `E`; every key of `E` maps to the encoding
of its value in `E` (also when it is named `documentUrl` or `title`), and `documentUrl` and
`title` map to `d` and `t`, with U+FFFD in place of their bad bytes, when `E` does not
contain them. -/
theorem extra_fields_merged (d t : GoString) (ap : Option GoMap)
    (hE : (GoMap.keys (ap.getD [])).Nodup)
    (hK : ∀ k ∈ GoMap.keys (ap.getD []), k.Valid)
    (hV : ∀ kv ∈ ap.getD [], ∃ j, jsonMarshalValue kv.2 = .ok j) :
    ∃ out, MarshalJSON { DocumentUrl := d, Title := t, UnparsedObject := none,
                         AdditionalProperties := ap } = .ok (.obj out) ∧
      (out.map Prod.fst).Nodup ∧
      (∀ k, k ∈ out.map Prod.fst ↔
        k = "documentUrl" ∨ k = "title" ∨ GoString.ofString k ∈ GoMap.keys (ap.getD [])) ∧
      (∀ k v, GoMap.get (ap.getD []) (.ofString k) = some v →
        ∃ j, jsonMarshalValue v = .ok j ∧ Json.lookup out k = some j) ∧
      (GoString.ofString "documentUrl" ∉ GoMap.keys (ap.getD []) →
        Json.lookup out "documentUrl" = some (.str d.toValidUTF8)) ∧
      (GoString.ofString "title" ∉ GoMap.keys (ap.getD []) →
        Json.lookup out "title" = some (.str t.toValidUTF8)) := by
  have hmar := MarshalJSON_typed d t ap
  generalize ap.getD [] = E at hE hK hV hmar
  have hbase : (GoMap.keys [(GoString.ofString "documentUrl", GoValue.string d),
      (GoString.ofString "title", GoValue.string t)]).Nodup := by
    simp only [GoMap.keys, List.map_cons, List.map_nil]
    decide
  have hnd := GoMap.nodup_foldl_store E _ hbase
  have hstr : ∀ s : GoString, jsonMarshalValue (.string s) = .ok (.str s.toValidUTF8) := by
    intro s
    simp [jsonMarshalValue]
  have hkv : ∀ k ∈ GoMap.keys (E.foldl GoMap.store
      [(.ofString "documentUrl", .string d), (.ofString "title", .string t)]), k.Valid := by
    intro k hk
    rcases (GoMap.keys_foldl_store E _ k).1 hk with h | h
    · simp only [GoMap.keys, List.map_cons, List.map_nil, List.mem_cons, List.mem_singleton,
        List.not_mem_nil, or_false] at h
      rcases h with rfl | rfl <;> exact GoString.valid_ofString _
    · exact hK k h
  have hvv : ∀ kv ∈ E.foldl GoMap.store
      [(.ofString "documentUrl", .string d), (.ofString "title", .string t)],
      ∃ j, jsonMarshalValue kv.2 = .ok j := by
    intro kv hkv'
    rcases GoMap.mem_foldl_store E _ kv hkv' with h | h
    · simp only [List.mem_cons, List.mem_singleton, List.not_mem_nil, or_false] at h
      rcases h with rfl | rfl <;> exact ⟨_, hstr _⟩
    · exact hV kv h
  obtain ⟨out, ho, hnod, hmem, hlook⟩ := jsonMarshalMap_spec _ hnd hkv hvv
  refine ⟨out, hmar.trans ho, hnod, fun k => ?_, fun k v hg => ?_, fun hk => ?_, fun hk => ?_⟩
  · rw [hmem, GoMap.keys_foldl_store]
    simp only [GoMap.keys, List.map_cons, List.map_nil, List.mem_cons, List.mem_singleton,
      List.not_mem_nil, or_false]
    constructor
    · rintro ((h | h) | h)
      · exact Or.inl (GoString.ofString_inj h)
      · exact Or.inr (Or.inl (GoString.ofString_inj h))
      · exact Or.inr (Or.inr h)
    · rintro (h | h | h)
      · exact Or.inl (Or.inl (by rw [h]))
      · exact Or.inl (Or.inr (by rw [h]))
      · exact Or.inr h
  · apply hlook
    rw [GoMap.get_foldl_store E _ _ hE, hg]
  · obtain ⟨j, hj, hl⟩ := hlook "documentUrl" (.string d) (by
      rw [GoMap.get_foldl_store E _ _ hE, GoMap.get_eq_none E _ hk]
      rfl)
    rw [hstr] at hj
    rw [hl, ← Except.ok.inj hj]
  · obtain ⟨j, hj, hl⟩ := hlook "title" (.string t) (by
      rw [GoMap.get_foldl_store E _ _ hE, GoMap.get_eq_none E _ hk]
      rfl)
    rw [hstr] at hj
    rw [hl, ← Except.ok.inj hj]

/-- The merge of C6 with additional properties `{"owner": "team-x"}`. -/
theorem extra_fields_merged_witness :
    ∃ out, MarshalJSON { DocumentUrl := .ofString "u", Title := .ofString "t",
                         UnparsedObject := none,
                         AdditionalProperties :=
                           some [(.ofString "owner", .string (.ofString "team-x"))] } =
        .ok (.obj out) ∧
      (out.map Prod.fst).Nodup ∧
      (∀ k, k ∈ out.map Prod.fst ↔
        k = "documentUrl" ∨ k = "title" ∨ GoString.ofString k ∈ [GoString.ofString "owner"]) ∧
      (∀ k v, GoMap.get [(.ofString "owner", .string (.ofString "team-x"))] (.ofString k) =
          some v →
        ∃ j, jsonMarshalValue v = .ok j ∧ Json.lookup out k = some j) ∧
      (GoString.ofString "documentUrl" ∉ [GoString.ofString "owner"] →
        Json.lookup out "documentUrl" = some (.str "u")) ∧
      (GoString.ofString "title" ∉ [GoString.ofString "owner"] →
        Json.lookup out "title" = some (.str "t")) :=
  extra_fields_merged (.ofString "u") (.ofString "t")
    (some [(.ofString "owner", .string (.ofString "team-x"))])
    (by simp [GoMap.keys])
    (by
      intro k hk
      simp only [Option.getD_some, GoMap.keys, List.map_cons, List.map_nil,
        List.mem_singleton] at hk
      subst hk
      exact GoString.valid_ofString _)
    (by
      intro kv hkv
      simp only [Option.getD_some, List.mem_singleton] at hkv
      subst hkv
      exact ⟨_, rfl⟩)

/-- C7 (raw records are echoed verbatim).  For every record whose `UnparsedObject` is a
non-nil map `m`, `MarshalJSON` returns exactly `json.Marshal(m)`, whatever `DocumentUrl`,
`Title` and `AdditionalProperties` are: two records that agree on `UnparsedObject` encode
identically.  What `json.Marshal(m)` returns is the object holding the entries of `m` in key
order, or the error of the first value that cannot be encoded. -/
theorem raw_echoed_verbatim (m : GoMap) (d t d' t' : GoString) (ap ap' : Option GoMap) :
    MarshalJSON { DocumentUrl := d, Title := t, UnparsedObject := some m,
                  AdditionalProperties := ap } = jsonMarshalMap m ∧
    (jsonMarshalMap m =
      match collectMembers ((jsonMarshalEntries m).insertionSort keyLe) with
      | .error e => .error e
      | .ok members => .ok (.obj members)) ∧
    MarshalJSON { DocumentUrl := d, Title := t, UnparsedObject := some m,
                  AdditionalProperties := ap } =
      MarshalJSON { DocumentUrl := d', Title := t', UnparsedObject := some m,
                    AdditionalProperties := ap' } :=
  ⟨rfl, jsonMarshalMap_eq m, rfl⟩

/-- C8, as stated, fails.  With `AdditionalProperties = {"title": 123}` the marshalled record
cannot be decoded at all; with `AdditionalProperties = {"owner": "team-x"}` it is decoded, but
the decoded record has lost `owner` and marshals to a different object. -/
theorem idempotence_fails_with_extras :
    (MarshalJSON { DocumentUrl := .ofString "u", Title := .ofString "t",
                   UnparsedObject := none,
                   AdditionalProperties :=
                     some [(.ofString "title", .float64 (.finite 123 0))] } =
        .ok (.obj [("documentUrl", .str "u"), ("title", .num (.int 123))]) ∧
      UnmarshalJSON fresh
          (.valid (.obj [("documentUrl", .str "u"), ("title", .num (.int 123))])) =
        (fresh, some (.unmarshalTypeError "number" "string"))) ∧
    (MarshalJSON { DocumentUrl := .ofString "u", Title := .ofString "t",
                   UnparsedObject := none,
                   AdditionalProperties :=
                     some [(.ofString "owner", .string (.ofString "team-x"))] } =
        .ok (.obj [("documentUrl", .str "u"), ("owner", .str "team-x"), ("title", .str "t")]) ∧
      UnmarshalJSON fresh (.valid
          (.obj [("documentUrl", .str "u"), ("owner", .str "team-x"), ("title", .str "t")])) =
        ({ DocumentUrl := .ofString "u", Title := .ofString "t", UnparsedObject := none,
           AdditionalProperties := none }, none) ∧
      MarshalJSON { DocumentUrl := .ofString "u", Title := .ofString "t",
                    UnparsedObject := none, AdditionalProperties := none } =
        .ok (.obj [("documentUrl", .str "u"), ("title", .str "t")]) ∧
      MarshalJSON { DocumentUrl := .ofString "u", Title := .ofString "t",
                    UnparsedObject := none, AdditionalProperties := none } ≠
        MarshalJSON { DocumentUrl := .ofString "u", Title := .ofString "t",
                      UnparsedObject := none,
                      AdditionalProperties :=
                        some [(.ofString "owner", .string (.ofString "team-x"))] }) := by
  refine ⟨⟨rfl, rfl⟩, rfl, rfl, rfl, ?_⟩
  intro h
  have h' : (Except.ok (.obj [("documentUrl", .str "u"), ("title", .str "t")]) :
      Except Error Json) =
      .ok (.obj [("documentUrl", .str "u"), ("owner", .str "team-x"), ("title", .str "t")]) := h
  simp at h'

/-- C8, amended.  For every typed record whose additional properties hold nothing but string
values under the keys `documentUrl` and `title` (in particular when there are none),
unmarshalling the marshalled record into a fresh record succeeds, and marshalling the decoded
record gives the same result again. -/
theorem idempotent_without_extras (d t : GoString) (ap : Option GoMap)
    (h : ∀ kv ∈ ap.getD [], (kv.1 = .ofString "documentUrl" ∨ kv.1 = .ofString "title") ∧
      ∃ s, kv.2 = .string s) :
    ∃ j r, MarshalJSON { DocumentUrl := d, Title := t, UnparsedObject := none,
                         AdditionalProperties := ap } = .ok j ∧
      UnmarshalJSON fresh (.valid j) = (r, none) ∧
      MarshalJSON r = .ok j := by
  obtain ⟨d', t', he⟩ := foldl_store_declared (ap.getD []) d t h
  refine ⟨.obj [("documentUrl", .str d'.toValidUTF8), ("title", .str t'.toValidUTF8)],
    { DocumentUrl := .ofString d'.toValidUTF8, Title := .ofString t'.toValidUTF8 }, ?_, rfl, ?_⟩
  · rw [MarshalJSON_typed, he]
    rfl
  · rw [MarshalJSON_plain, GoString.toValidUTF8_ofString, GoString.toValidUTF8_ofString]

/-- The amended C8 at a record whose additional properties overwrite `title` with a string. -/
theorem idempotent_without_extras_witness :
    ∃ j r, MarshalJSON { DocumentUrl := .ofString "u", Title := .ofString "t",
                         UnparsedObject := none,
                         AdditionalProperties :=
                           some [(.ofString "title", .string (.ofString "other"))] } = .ok j ∧
      UnmarshalJSON fresh (.valid j) = (r, none) ∧
      MarshalJSON r = .ok j :=
  idempotent_without_extras (.ofString "u") (.ofString "t")
    (some [(.ofString "title", .string (.ofString "other"))]) (by
    intro kv hkv
    simp only [Option.getD_some, List.mem_singleton] at hkv
    subst hkv
    exact ⟨Or.inr rfl, _, rfl⟩)

/-- C9, as stated, fails for a further member whose key differs from a wire name by letter
case.  In `{"documentUrl": "u", "title": "t", "Title": null}` the members named `documentUrl`
and `title` are the strings `u` and `t`, yet the decode fails with
"required field title missing": the decoder has stored the member `Title` into `Title`. -/
theorem unknown_member_case_variant_rejected :
    memberNamed "documentUrl"
        [("documentUrl", .str "u"), ("title", .str "t"), ("Title", .null)] =
      some (.str "u") ∧
    memberNamed "title"
        [("documentUrl", .str "u"), ("title", .str "t"), ("Title", .null)] =
      some (.str "t") ∧
    UnmarshalJSON fresh (.valid (.obj
        [("documentUrl", .str "u"), ("title", .str "t"), ("Title", .null)])) =
      (fresh, some (.errorf "required field title missing")) :=
  ⟨rfl, rfl, rfl⟩

/-- C9, amended (unknown properties are tolerated and dropped).  The members `documentUrl` and
`title` of a payload are those the decoder stores into the two fields: a key matches a wire
name exactly or without regard to letter case, and a later member supersedes an earlier one.
For every JSON object payload in which every such member is a string or null and the members
`documentUrl` and `title` are the strings `d` and `t`, with any further members (those the
decoder stores into neither field) of any JSON type, the decode into a fresh record returns no
error and yields `DocumentUrl = d`, `Title = t`, `UnparsedObject` nil and
`AdditionalProperties` nil: no unknown member is kept and none raises an error. -/
theorem unknown_properties_dropped (members : List (String × Json)) (d t : String)
    (h : WellTyped members)
    (hd : declared .documentUrl members = some (.str d))
    (ht : declared .title members = some (.str t)) :
    UnmarshalJSON fresh (.valid (.obj members)) =
      ({ DocumentUrl := .ofString d, Title := .ofString t, UnparsedObject := none,
         AdditionalProperties := none }, none) :=
  UnmarshalJSON_typed fresh members d t h hd ht

/-- The typed decode of C9 at a payload with four unknown members of different JSON types. -/
theorem unknown_properties_dropped_witness :
    UnmarshalJSON fresh (.valid (.obj
        [("owner", .str "team-x"), ("documentUrl", .str "u"), ("count", .num (.int 3)),
         ("title", .str "t"), ("tags", .arr [.bool true, .null]),
         ("meta", .obj [("title", .num (.int 1))])])) =
      ({ DocumentUrl := .ofString "u", Title := .ofString "t", UnparsedObject := none,
         AdditionalProperties := none }, none) :=
  unknown_properties_dropped _ "u" "t"
    (wellTyped_cons_unknown _ _ _ (by decide) (wellTyped_cons_string _ _ _
      (wellTyped_cons_unknown _ _ _ (by decide) (wellTyped_cons_string _ _ _
        (wellTyped_cons_unknown _ _ _ (by decide)
          (wellTyped_cons_unknown _ _ _ (by decide) wellTyped_nil))))))
    rfl rfl

/-- C10, as stated, fails when the keys differ from the wire names by letter case.  The
payload `{"DOCUMENTURL": "u", "TITLE": "t"}` has no member named `documentUrl` and none named
`title`, yet the decode succeeds with the typed record `u`, `t`. -/
theorem missing_literal_keys_still_decoded :
    memberNamed "documentUrl" [("DOCUMENTURL", .str "u"), ("TITLE", .str "t")] = none ∧
    memberNamed "title" [("DOCUMENTURL", .str "u"), ("TITLE", .str "t")] = none ∧
    UnmarshalJSON fresh (.valid (.obj [("DOCUMENTURL", .str "u"), ("TITLE", .str "t")])) =
      ({ DocumentUrl := .ofString "u", Title := .ofString "t", UnparsedObject := none,
         AdditionalProperties := none }, none) :=
  ⟨rfl, rfl, rfl⟩

/-- C10, amended (a missing required field always fails hard).  The members `documentUrl` and
`title` of a payload are those the decoder stores into the two fields: a key matches a wire
name exactly or without regard to letter case, and a later member supersedes an earlier one.
For every payload, of any shape and with any other members, in which the member
`documentUrl` or the member `title` is absent or null, the decode returns an error and leaves
the receiver as it was: it neither succeeds with a typed record nor takes the raw-fallback
path. -/
theorem missing_required_fails_hard (o : IncidentAttachmentLinkAttributesAttachmentObject)
    (bytes : Payload)
    (h : absentOrNull (bytes.declared .documentUrl) ∨ absentOrNull (bytes.declared .title)) :
    ∃ e, UnmarshalJSON o bytes = (o, some e) := by
  rcases bytes with msg | j
  · exact ⟨_, rfl⟩
  · cases j with
    | null => exact ⟨_, rfl⟩
    | bool b => exact ⟨_, rfl⟩
    | num n => exact ⟨_, rfl⟩
    | str s => exact ⟨_, rfl⟩
    | arr xs => exact ⟨_, rfl⟩
    | obj ms =>
      by_cases hmis : ∃ m ∈ ms, Mismatch m
      · obtain ⟨m, _, _, he⟩ := UnmarshalJSON_mismatch o ms hmis
        exact ⟨_, he⟩
      · have hw := wellTyped_of_no_mismatch ms hmis
        by_cases hd : absentOrNull (declared .documentUrl ms)
        · exact ⟨_, UnmarshalJSON_missing_documentUrl o ms hw hd⟩
        · have ht : absentOrNull (declared .title ms) := h.resolve_left hd
          cases hv : declared .documentUrl ms with
          | none => simp [hv, absentOrNull] at hd
          | some v =>
            obtain ⟨m, hm, hf, rfl⟩ := declared_mem _ _ _ hv
            rcases hw m hm (by simp [hf]) with hs | hn
            · rcases m with ⟨k, v⟩
              cases v <;> simp [Json.isString] at hs
              exact ⟨_, UnmarshalJSON_missing_title o ms _ hw hv ht⟩
            · simp [hv, absentOrNull, hn] at hd

/-- The hard failure of C10 at an object with a null `title`, at an array and at `null`. -/
theorem missing_required_fails_hard_witness :
    (∃ e, UnmarshalJSON fresh (.valid (.obj
        [("documentUrl", .str "u"), ("title", .null), ("extra", .arr [.num (.int 1)])])) =
      (fresh, some e)) ∧
    (∃ e, UnmarshalJSON fresh (.valid (.arr [.str "documentUrl", .str "title"])) =
      (fresh, some e)) ∧
    (∃ e, UnmarshalJSON fresh (.valid .null) = (fresh, some e)) :=
  ⟨missing_required_fails_hard fresh _ (Or.inr rfl),
   missing_required_fails_hard fresh _ (Or.inl trivial),
   missing_required_fails_hard fresh _ (Or.inl trivial)⟩

/-! ## Every payload: an error, or a typed decode -/

theorem declared_string_of_present (f : Field) (ms : List (String × Json)) (hw : WellTyped ms)
    (h : ¬ absentOrNull (declared f ms)) : ∃ s, declared f ms = some (.str s) := by
  cases hv : declared f ms with
  | none => simp [hv, absentOrNull] at h
  | some v =>
    obtain ⟨m, hm, hf, rfl⟩ := declared_mem _ _ _ hv
    rcases hw m hm (by simp [hf]) with hs | hn
    · rcases m with ⟨k, v⟩
      cases v <;> simp [Json.isString] at hs
      exact ⟨_, rfl⟩
    · simp [hv, absentOrNull, hn] at h

/-- Whatever the payload, `UnmarshalJSON` either returns an error and leaves the receiver as
it was, or the payload is an object whose declared members are well typed with both required
ones strings, and exactly the two declared fields of the receiver are written. -/
theorem UnmarshalJSON_cases (o : IncidentAttachmentLinkAttributesAttachmentObject)
    (bytes : Payload) :
    (∃ e, UnmarshalJSON o bytes = (o, some e)) ∨
    (∃ ms d t, bytes = .valid (.obj ms) ∧ WellTyped ms ∧
      declared .documentUrl ms = some (.str d) ∧ declared .title ms = some (.str t) ∧
      UnmarshalJSON o bytes =
        ({ o with DocumentUrl := .ofString d, Title := .ofString t }, none)) := by
  rcases bytes with msg | j
  · exact Or.inl ⟨_, rfl⟩
  · cases j with
    | null => exact Or.inl ⟨_, rfl⟩
    | bool b => exact Or.inl ⟨_, rfl⟩
    | num n => exact Or.inl ⟨_, rfl⟩
    | str s => exact Or.inl ⟨_, rfl⟩
    | arr xs => exact Or.inl ⟨_, rfl⟩
    | obj ms =>
      by_cases hmis : ∃ m ∈ ms, Mismatch m
      · obtain ⟨m, _, _, he⟩ := UnmarshalJSON_mismatch o ms hmis
        exact Or.inl ⟨_, he⟩
      · have hw := wellTyped_of_no_mismatch ms hmis
        by_cases hd : absentOrNull (declared .documentUrl ms)
        · exact Or.inl ⟨_, UnmarshalJSON_missing_documentUrl o ms hw hd⟩
        · obtain ⟨d, hd'⟩ := declared_string_of_present _ ms hw hd
          by_cases ht : absentOrNull (declared .title ms)
          · exact Or.inl ⟨_, UnmarshalJSON_missing_title o ms d hw hd' ht⟩
          · obtain ⟨t, ht'⟩ := declared_string_of_present _ ms hw ht
            exact Or.inr ⟨ms, d, t, rfl, hw, hd', ht', UnmarshalJSON_typed o ms d t hw hd' ht'⟩

/-! ## The two strict decoders fail on the same payloads -/

theorem member_errors_agree (r : Required) (a : All) (e : Option Error) (m : String × Json) :
    (Required.member (r, e) m).2 = (All.member (a, e) m).2 := by
  unfold Required.member All.member
  rcases m with ⟨k, v⟩
  cases hf : findField k with
  | none => rfl
  | some f => cases f <;> cases v <;> rfl

theorem foldl_errors_agree (ms : List (String × Json)) (r : Required) (a : All)
    (e : Option Error) :
    (ms.foldl Required.member (r, e)).2 = (ms.foldl All.member (a, e)).2 := by
  induction ms generalizing r a e with
  | nil => rfl
  | cons m ms ih =>
    have h := member_errors_agree r a e m
    rw [List.foldl_cons, List.foldl_cons]
    generalize Required.member (r, e) m = st at h
    generalize All.member (a, e) m = st' at h
    rcases st with ⟨r', e'⟩
    rcases st' with ⟨a', e''⟩
    simp only at h
    subst h
    exact ih r' a' e'

theorem unmarshal_errors_agree (bytes : Payload) (r : Required) (a : All) :
    (jsonUnmarshalRequired bytes r).2 = (jsonUnmarshalAll bytes a).2 := by
  rcases bytes with msg | j
  · rfl
  · cases j with
    | obj ms => exact foldl_errors_agree ms r a none
    | _ => rfl

/-! ## The claims, continued -/

/-- C11 (typed XOR raw).  For every payload on which the decode into a fresh record succeeds,
the result is either typed (`UnparsedObject` nil, `DocumentUrl` and `Title` the string values
of the payload's members) or raw (`UnparsedObject` the generic map parsed from the payload,
`DocumentUrl` and `Title` at their zero values); it is never a record with `UnparsedObject`
populated and a declared field populated as well. -/
theorem typed_xor_raw (bytes : Payload) (r : IncidentAttachmentLinkAttributesAttachmentObject)
    (h : UnmarshalJSON fresh bytes = (r, none)) :
    ((∃ ms d t, bytes = .valid (.obj ms) ∧
        declared .documentUrl ms = some (.str d) ∧ declared .title ms = some (.str t) ∧
        r = { DocumentUrl := .ofString d, Title := .ofString t, UnparsedObject := none,
              AdditionalProperties := none }) ∨
     (∃ raw, (jsonUnmarshalMap bytes (some [])).1 = some raw ∧
        r = { DocumentUrl := [], Title := [], UnparsedObject := some raw,
              AdditionalProperties := none })) ∧
    ¬ (r.UnparsedObject ≠ none ∧ (r.DocumentUrl ≠ [] ∨ r.Title ≠ [])) := by
  rcases UnmarshalJSON_cases fresh bytes with ⟨e, he⟩ | ⟨ms, d, t, hb, _, hd, ht, he⟩
  · rw [he] at h
    cases h
  · rw [he] at h
    cases h
    exact ⟨Or.inl ⟨ms, d, t, hb, hd, ht, rfl⟩, fun hc => hc.1 rfl⟩

/-- The dichotomy of C11 at the payload `{"documentUrl": "u", "title": "t", "owner": 1}`. -/
theorem typed_xor_raw_witness :
    ((∃ ms d t, Payload.valid (.obj [("documentUrl", .str "u"), ("title", .str "t"),
          ("owner", .num (.int 1))]) = .valid (.obj ms) ∧
        declared .documentUrl ms = some (.str d) ∧ declared .title ms = some (.str t) ∧
        ({ DocumentUrl := .ofString "u", Title := .ofString "t", UnparsedObject := none,
           AdditionalProperties := none } : IncidentAttachmentLinkAttributesAttachmentObject) =
          { DocumentUrl := .ofString d, Title := .ofString t, UnparsedObject := none,
            AdditionalProperties := none }) ∨
     (∃ raw, (jsonUnmarshalMap (.valid (.obj [("documentUrl", .str "u"), ("title", .str "t"),
          ("owner", .num (.int 1))])) (some [])).1 = some raw ∧
        ({ DocumentUrl := .ofString "u", Title := .ofString "t", UnparsedObject := none,
           AdditionalProperties := none } : IncidentAttachmentLinkAttributesAttachmentObject) =
          { DocumentUrl := [], Title := [], UnparsedObject := some raw,
            AdditionalProperties := none })) ∧
    ¬ ((none : Option GoMap) ≠ none ∧
      (GoString.ofString "u" ≠ [] ∨ GoString.ofString "t" ≠ [])) :=
  typed_xor_raw
    (.valid (.obj [("documentUrl", .str "u"), ("title", .str "t"), ("owner", .num (.int 1))]))
    { DocumentUrl := .ofString "u", Title := .ofString "t", UnparsedObject := none,
      AdditionalProperties := none }
    rfl

/-- C12, as stated, fails for an argument that is not valid UTF-8.  For `d = "\xff"`
`MarshalJSON` of the constructed record writes `documentUrl` as U+FFFD, which is not `d`. -/
theorem constructor_marshal_replaces_bad_bytes :
    MarshalJSON (NewIncidentAttachmentLinkAttributesAttachmentObject [.bad 0xFF]
        (.ofString "t")) =
      .ok (.obj [("documentUrl", .str "�"), ("title", .str "t")]) ∧
    GoString.ofString "�" ≠ [.bad 0xFF] :=
  ⟨rfl, by decide⟩

/-- C12, amended (the constructor sets the required properties).  For all Go strings `d` and
`t`, `NewIncidentAttachmentLinkAttributesAttachmentObject(d, t)` is the typed record with
`DocumentUrl = d`, `Title = t`, `UnparsedObject` nil and `AdditionalProperties` nil, so
`GetDocumentUrl` returns `d`, `GetTitle` returns `t`, and `MarshalJSON` yields the object
with exactly the members `documentUrl` and `title`, whose values are `d` and `t` with U+FFFD
in place of every byte that is part of no valid UTF-8 encoding: `d` and `t` themselves when
they are valid UTF-8. -/
theorem constructor_sets_required (d t : GoString) :
    NewIncidentAttachmentLinkAttributesAttachmentObject d t =
      { DocumentUrl := d, Title := t, UnparsedObject := none, AdditionalProperties := none } ∧
    GetDocumentUrl (some (NewIncidentAttachmentLinkAttributesAttachmentObject d t)) = d ∧
    GetTitle (some (NewIncidentAttachmentLinkAttributesAttachmentObject d t)) = t ∧
    MarshalJSON (NewIncidentAttachmentLinkAttributesAttachmentObject d t) =
      .ok (.obj [("documentUrl", .str d.toValidUTF8), ("title", .str t.toValidUTF8)]) ∧
    (d.Valid → GoString.ofString d.toValidUTF8 = d) ∧
    (t.Valid → GoString.ofString t.toValidUTF8 = t) :=
  ⟨rfl, rfl, rfl, rfl, GoString.ofString_toValidUTF8 d, GoString.ofString_toValidUTF8 t⟩

/-- The amended C12 at the arguments `"https://example.com/doc"` and `"Postmortem"`, which
are valid UTF-8: the object written holds the two strings themselves. -/
theorem constructor_sets_required_witness :
    MarshalJSON (NewIncidentAttachmentLinkAttributesAttachmentObject
        (.ofString "https://example.com/doc") (.ofString "Postmortem")) =
      .ok (.obj [("documentUrl", .str "https://example.com/doc"),
                 ("title", .str "Postmortem")]) ∧
    GoString.ofString (GoString.ofString "Postmortem").toValidUTF8 =
      GoString.ofString "Postmortem" :=
  ⟨(constructor_sets_required (.ofString "https://example.com/doc")
      (.ofString "Postmortem")).2.2.2.1,
   (constructor_sets_required (.ofString "https://example.com/doc")
      (.ofString "Postmortem")).2.2.2.2.2 (GoString.valid_ofString _)⟩

/-- C13 (setters set exactly their field).  For every record `o` and string `v`, after
`SetDocumentUrl(v)` `GetDocumentUrl` returns `v` and `Title`, `UnparsedObject` and
`AdditionalProperties` are unchanged; after `SetTitle(v)` `GetTitle` returns `v` and
`DocumentUrl`, `UnparsedObject` and `AdditionalProperties` are unchanged. -/
theorem setters_set_their_field (o : IncidentAttachmentLinkAttributesAttachmentObject)
    (v : GoString) :
    (GetDocumentUrl (some (SetDocumentUrl o v)) = v ∧
      (SetDocumentUrl o v).Title = o.Title ∧
      (SetDocumentUrl o v).UnparsedObject = o.UnparsedObject ∧
      (SetDocumentUrl o v).AdditionalProperties = o.AdditionalProperties) ∧
    (GetTitle (some (SetTitle o v)) = v ∧
      (SetTitle o v).DocumentUrl = o.DocumentUrl ∧
      (SetTitle o v).UnparsedObject = o.UnparsedObject ∧
      (SetTitle o v).AdditionalProperties = o.AdditionalProperties) :=
  ⟨⟨rfl, rfl, rfl, rfl⟩, ⟨rfl, rfl, rfl, rfl⟩⟩

/-- C14, the code at the failing input.  On the record returned by
`NewIncidentAttachmentLinkAttributesAttachmentObjectWithDefaults`, on which no setter was
called, `GetDocumentUrlOk` and `GetTitleOk` return the empty string together with `true`;
indeed the boolean is `true` for every non-nil receiver and `false` only for nil. -/
theorem getOk_true_on_defaults :
    GetDocumentUrlOk (some NewIncidentAttachmentLinkAttributesAttachmentObjectWithDefaults) =
      (some [], true) ∧
    GetTitleOk (some NewIncidentAttachmentLinkAttributesAttachmentObjectWithDefaults) =
      (some [], true) ∧
    (∀ o, (GetDocumentUrlOk (some o)).2 = true ∧ (GetTitleOk (some o)).2 = true) ∧
    GetDocumentUrlOk none = (none, false) ∧ GetTitleOk none = (none, false) :=
  ⟨rfl, rfl, fun _ => ⟨rfl, rfl⟩, rfl, rfl⟩

/-- C15 (the raw-fallback branch is unreachable).  For every payload, if the strict decode
into the required-fields shape succeeds with both slots non-nil, then the strict decode into
the full shape succeeds too; hence `UnmarshalJSON` always leaves `UnparsedObject` as it was,
and a successful decode into a fresh record never yields a raw record. -/
theorem raw_fallback_unreachable (o : IncidentAttachmentLinkAttributesAttachmentObject)
    (bytes : Payload) :
    ((jsonUnmarshalRequired bytes {}).2 = none →
      (jsonUnmarshalRequired bytes {}).1.DocumentUrl ≠ none →
      (jsonUnmarshalRequired bytes {}).1.Title ≠ none →
      (jsonUnmarshalAll bytes {}).2 = none) ∧
    (UnmarshalJSON o bytes).1.UnparsedObject = o.UnparsedObject ∧
    (∀ r, UnmarshalJSON fresh bytes = (r, none) → r.UnparsedObject = none) := by
  refine ⟨fun h _ _ => (unmarshal_errors_agree bytes {} {}).symm.trans h, ?_, fun r h => ?_⟩
  · rcases UnmarshalJSON_cases o bytes with ⟨e, he⟩ | ⟨ms, d, t, _, _, _, _, he⟩ <;> rw [he]
  · rcases UnmarshalJSON_cases fresh bytes with ⟨e, he⟩ | ⟨ms, d, t, _, _, _, _, he⟩
    · rw [he] at h
      cases h
    · rw [he] at h
      cases h
      rfl

/-- The first part of C15 at the payload `{"documentUrl": "u", "title": "t"}`, where the
decode into the required-fields shape does succeed with both slots non-nil. -/
theorem raw_fallback_unreachable_witness :
    (jsonUnmarshalAll (.valid (.obj [("documentUrl", .str "u"), ("title", .str "t")])) {}).2 =
      none :=
  (raw_fallback_unreachable fresh
    (.valid (.obj [("documentUrl", .str "u"), ("title", .str "t")]))).1 rfl
      (by decide) (by decide)

/-- C16 (decode is atomic on failure).  For every record `o` and every payload on which
`UnmarshalJSON` returns an error (invalid JSON, a type mismatch or a missing required
field), the receiver afterwards is `o` itself: `DocumentUrl`, `Title`, `UnparsedObject` and
`AdditionalProperties` are all unchanged. -/
theorem decode_atomic_on_failure (o o' : IncidentAttachmentLinkAttributesAttachmentObject)
    (bytes : Payload) (e : Error) (h : UnmarshalJSON o bytes = (o', some e)) :
    o' = o ∧
    (o'.DocumentUrl = o.DocumentUrl ∧ o'.Title = o.Title ∧
      o'.UnparsedObject = o.UnparsedObject ∧
      o'.AdditionalProperties = o.AdditionalProperties) := by
  rcases UnmarshalJSON_cases o bytes with ⟨e', he⟩ | ⟨ms, d, t, _, _, _, _, he⟩
  · rw [he] at h
    cases h
    exact ⟨rfl, rfl, rfl, rfl, rfl⟩
  · rw [he] at h
    cases h

/-- The atomicity of C16 on a record that already holds data, for a payload that is not
JSON, for `{"documentUrl": "u", "title": 123}` and for `{"documentUrl": "u"}`. -/
theorem decode_atomic_on_failure_witness :
    ((UnmarshalJSON
        { DocumentUrl := .ofString "old", Title := .ofString "kept",
          UnparsedObject := some [(.ofString "k", .nil)],
          AdditionalProperties := some [(.ofString "owner", .string (.ofString "team-x"))] }
        (.invalid "invalid character")).1 =
      { DocumentUrl := .ofString "old", Title := .ofString "kept",
        UnparsedObject := some [(.ofString "k", .nil)],
        AdditionalProperties := some [(.ofString "owner", .string (.ofString "team-x"))] }) ∧
    ((UnmarshalJSON
        { DocumentUrl := .ofString "old", Title := .ofString "kept",
          UnparsedObject := some [(.ofString "k", .nil)],
          AdditionalProperties := some [(.ofString "owner", .string (.ofString "team-x"))] }
        (.valid (.obj [("documentUrl", .str "u"), ("title", .num (.int 123))]))).1 =
      { DocumentUrl := .ofString "old", Title := .ofString "kept",
        UnparsedObject := some [(.ofString "k", .nil)],
        AdditionalProperties := some [(.ofString "owner", .string (.ofString "team-x"))] }) ∧
    ((UnmarshalJSON
        { DocumentUrl := .ofString "old", Title := .ofString "kept",
          UnparsedObject := some [(.ofString "k", .nil)],
          AdditionalProperties := some [(.ofString "owner", .string (.ofString "team-x"))] }
        (.valid (.obj [("documentUrl", .str "u")]))).1 =
      { DocumentUrl := .ofString "old", Title := .ofString "kept",
        UnparsedObject := some [(.ofString "k", .nil)],
        AdditionalProperties := some [(.ofString "owner", .string (.ofString "team-x"))] }) :=
  ⟨(decode_atomic_on_failure _ _ (.invalid "invalid character")
      (.syntaxError "invalid character") rfl).1,
   (decode_atomic_on_failure _ _
      (.valid (.obj [("documentUrl", .str "u"), ("title", .num (.int 123))]))
      (.unmarshalTypeError "number" "string") rfl).1,
   (decode_atomic_on_failure _ _ (.valid (.obj [("documentUrl", .str "u")]))
      (.errorf "required field title missing") rfl).1⟩

/-- C17 (a successful typed decode writes only the declared fields).  For every record `o`,
fresh or not, and every object payload whose `documentUrl` and `title` are the strings `d`
and `t`, `UnmarshalJSON` sets `DocumentUrl` and `Title` and leaves `UnparsedObject` and
`AdditionalProperties` as they were; so decoding into a record that is already raw leaves it
raw, and `MarshalJSON` of the result still returns the old `UnparsedObject`, not the newly
decoded values. -/
theorem typed_decode_writes_declared_only
    (o : IncidentAttachmentLinkAttributesAttachmentObject)
    (members : List (String × Json)) (d t : String) (h : WellTyped members)
    (hd : declared .documentUrl members = some (.str d))
    (ht : declared .title members = some (.str t)) :
    UnmarshalJSON o (.valid (.obj members)) =
      ({ DocumentUrl := .ofString d, Title := .ofString t, UnparsedObject := o.UnparsedObject,
         AdditionalProperties := o.AdditionalProperties }, none) ∧
    (∀ m, o.UnparsedObject = some m →
      (UnmarshalJSON o (.valid (.obj members))).1.UnparsedObject = some m ∧
      MarshalJSON (UnmarshalJSON o (.valid (.obj members))).1 = jsonMarshalMap m ∧
      MarshalJSON (UnmarshalJSON o (.valid (.obj members))).1 = MarshalJSON o) := by
  have he := UnmarshalJSON_typed o members d t h hd ht
  refine ⟨he, fun m hm => ?_⟩
  rw [he]
  simp only [MarshalJSON, hm]
  exact ⟨trivial, trivial, trivial⟩

/-- The frame of C17 on a raw record: after decoding `{"documentUrl": "u", "title": "t"}`
the record carries the new field values, is still raw, and marshals to the old map. -/
theorem typed_decode_writes_declared_only_witness :
    UnmarshalJSON
        { DocumentUrl := [], Title := [], UnparsedObject := some [(.ofString "k", .nil)],
          AdditionalProperties := none }
        (.valid (.obj [("documentUrl", .str "u"), ("title", .str "t")])) =
      ({ DocumentUrl := .ofString "u", Title := .ofString "t",
         UnparsedObject := some [(.ofString "k", .nil)],
         AdditionalProperties := none }, none) ∧
    MarshalJSON (UnmarshalJSON
        { DocumentUrl := [], Title := [], UnparsedObject := some [(.ofString "k", .nil)],
          AdditionalProperties := none }
        (.valid (.obj [("documentUrl", .str "u"), ("title", .str "t")]))).1 =
      .ok (.obj [("k", .null)]) :=
  ⟨(typed_decode_writes_declared_only
      { DocumentUrl := [], Title := [], UnparsedObject := some [(.ofString "k", .nil)],
        AdditionalProperties := none }
      [("documentUrl", .str "u"), ("title", .str "t")] "u" "t"
      (wellTyped_cons_string _ _ _ (wellTyped_cons_string _ _ _ wellTyped_nil)) rfl rfl).1,
   ((typed_decode_writes_declared_only
      { DocumentUrl := [], Title := [], UnparsedObject := some [(.ofString "k", .nil)],
        AdditionalProperties := none }
      [("documentUrl", .str "u"), ("title", .str "t")] "u" "t"
      (wellTyped_cons_string _ _ _ (wellTyped_cons_string _ _ _ wellTyped_nil)) rfl rfl).2
        [(.ofString "k", .nil)] rfl).2.1⟩

end DatadogV2
